import Mathlib

/-!
Verification of the itinerary-construction core of the IM3180 backend.

The development shallowly embeds the two core modules:

* `app/routes/trip_optimizer.py` — the per-day route sequencer: meal-role
  designation (`get_optimized_route`), the recursive meal-role retry search
  (`trip_optimizer`), the constraints of the OR-tools routing model it builds,
  and the solution formatter (`_format_solution`).
* `app/routes/cluster.py` — the two-day-allocation-policy cluster endpoint
  (`get_clusters_given_all_locations`).

External services (Google Maps, the OR-tools solver engine, DBSCAN) are
abstracted as parameters: the solver is a boolean oracle over role
assignments, DBSCAN labels arrive as the `cluster_id` field of each processed
location, and the success of the Google calls is a boolean parameter.  The
constraint system the code hands to OR-tools is embedded directly as a
decidable admissibility predicate on candidate routes.
-/

/-! ### Part 1: the meal-role retry search (`trip_optimizer`)

`trip_optimizer(data, lunch_index, dinner_index, flip)` selects
`lunch_node = eatery_nodes[lunch_index]` (when `lunch_index != -1`), bumping
`dinner_index` from `0` to `1` whenever a lunch node is designated, selects
`dinner_node` likewise, solves, and on failure recurses:

* not yet flipped: retry with the two (local) index values exchanged,
  `flip=True`;
* already flipped: restore the orientation by swapping back, then advance
  `dinner_index`, else advance `lunch_index` (setting
  `dinner_index = lunch_index + 2`), else raise 404.

Because the solver outcome is a deterministic function of the mutable fields
`data['lunch_node']`/`data['dinner_node']` (all other fields of `data` are
fixed during the recursion) and `eatery_nodes` is a fixed list of distinct
node ids, the solver is abstracted as an oracle `solve` on the effective
index pair.  `k` is `len(data['eatery_nodes'])`.  The `Nat` argument is pure
fuel (Python has no such bound; termination is proved separately) and the
list of attempted `(lunch_index, dinner_index)` pairs is returned alongside
the outcome. -/

inductive SearchOutcome where
  | found (lunch_index dinner_index : Int)
  | noSolution
  | outOfFuel
deriving DecidableEq, Repr

/-- The local mutation `if dinner_index == 0: dinner_index += 1` guarded by
`lunch_index != -1` at the top of `trip_optimizer`. -/
def effDinner (lunch_index dinner_index : Int) : Int :=
  if lunch_index ≠ -1 ∧ dinner_index = 0 then dinner_index + 1 else dinner_index

/-- The `trip_optimizer` retry recursion of `trip_optimizer.py`, lines
111–203, with the solver abstracted as `solve`. -/
def trip_optimizer (k : Nat) (solve : Int → Int → Bool) :
    Nat → Int → Int → Bool → SearchOutcome × List (Int × Int)
  | 0, _, _, _ => (SearchOutcome.outOfFuel, [])
  | fuel + 1, lunch_index, dinner_index, flip =>
    let dinner2 : Int := effDinner lunch_index dinner_index
    if solve lunch_index dinner2 then
      (SearchOutcome.found lunch_index dinner2, [(lunch_index, dinner2)])
    else if lunch_index = -1 ∨ dinner2 = -1 then
      (SearchOutcome.noSolution, [(lunch_index, dinner2)])
    else if flip = false then
      let r := trip_optimizer k solve fuel dinner2 lunch_index true
      (r.1, (lunch_index, dinner2) :: r.2)
    else
      -- `lunch_index, dinner_index = dinner_index, lunch_index` (revert)
      let lunch3 : Int := dinner2
      let dinner3 : Int := lunch_index
      if dinner3 + 1 < (k : Int) then
        let r := trip_optimizer k solve fuel lunch3 (dinner3 + 1) false
        (r.1, (lunch_index, dinner2) :: r.2)
      else if lunch3 + 1 < (k : Int) - 1 then
        let r := trip_optimizer k solve fuel (lunch3 + 1) (lunch3 + 2) false
        (r.1, (lunch_index, dinner2) :: r.2)
      else
        (SearchOutcome.noSolution, [(lunch_index, dinner2)])

/-- The index bump applied by `trip_optimizer` when a lunch node is
designated: index `0` becomes `1`. -/
def bumpIdx (x : Int) : Int := if x = 0 then 1 else x

/-- States of the retry recursion reachable from the initial call
`trip_optimizer(data, 0, 0, False)` with `k` eligible nodes. -/
def searchInvariant (k : Nat) (l d : Int) : Bool → Prop
  | true => (l = 1 ∧ d = 0) ∨ (1 ≤ d ∧ d < l ∧ l < (k : Int))
  | false => (l = 0 ∧ d = 0) ∨ (1 ≤ l ∧ l < d ∧ d < (k : Int))

/-- Termination measure for the retry recursion: lexicographic progress of
the canonical (restored) index pair, with the orientation flag as the low
bit. -/
def searchMeasure (k : Nat) (l d : Int) : Bool → Nat
  | true => 2 * (k * (k - (bumpIdx d).toNat) + (k - l.toNat))
  | false => 2 * (k * (k - (bumpIdx l).toNat) + (k - (bumpIdx d).toNat)) + 1

/-! ### Part 2: the `get_optimized_route` endpoint

The endpoint body runs, in source order:

1. the external-call block (`try: get_time_matrix(addresses);
   addresses.pop(hotel_index); identify_eateries(...);
   addresses.insert(0, ...)  except Exception: raise 500`),
2. the input-validation block (422 on length mismatch, on an empty address
   list, and on a nonzero hotel service time),
3. the lunch/dinner designation checks,
4. the free-spot augmentation loop and the call to `trip_optimizer`.

The pydantic layer (`TripOptiIn`) guarantees the three required fields are
present, so the `400 Missing required fields` branch is unreachable and the
record fields below are total.  The two Google calls are abstracted by the
boolean `googleOk`; `addresses.pop(hotel_index)` raises `IndexError` (caught
by the same `except`, hence surfaced as the 500 Google error) unless
`-len(addresses) <= hotel_index < len(addresses)`. -/

structure TripOptiIn where
  addresses : List String
  hotel_index : Int
  service_times : List Int
  start_hour : Int := 9
  end_hour : Int := 21
  lunch_start_hour : Int := 11
  lunch_end_hour : Int := 13
  dinner_start_hour : Int := 17
  dinner_end_hour : Int := 19
  time_taken_to_free_space : Int := 15
  service_time_at_free_space : Int := 60
deriving DecidableEq, Repr

/-- The lunch designation check of `get_optimized_route`:
`lunch_index = 0 if lunch_end_hour > start_hour else -1`. -/
def lunch_index_of (r : TripOptiIn) : Int :=
  if r.lunch_end_hour > r.start_hour then 0 else -1

/-- Sum of a list of integers (Python `sum`). -/
def intSum (l : List Int) : Int := l.foldl (· + ·) 0

/-- The dinner designation check of `get_optimized_route`: designated iff
`MIN_TIME_TAKEN + 10*len(addresses) >= (dinner_start_hour-start_hour)*60`
and `end_hour > dinner_start_hour`. -/
def dinner_index_of (r : TripOptiIn) : Int :=
  if intSum r.service_times + 10 * (r.addresses.length : Int) ≥
      (r.dinner_start_hour - r.start_hour) * 60 ∧
      r.end_hour > r.dinner_start_hour then 0 else -1

/-- Stated from the spec (for comparison with the code): "dinner is skipped
when minimum cumulative service time cannot plausibly reach dinner's start
window and the day ends before dinner's start". -/
def spec_dinner_skipped (r : TripOptiIn) : Prop :=
  intSum r.service_times + 10 * (r.addresses.length : Int) <
      (r.dinner_start_hour - r.start_hour) * 60 ∧
    r.end_hour ≤ r.dinner_start_hour

instance (r : TripOptiIn) : Decidable (spec_dinner_skipped r) := by
  unfold spec_dinner_skipped; infer_instance

/-- How far the endpoint gets before raising, following the source order of
`get_optimized_route` (external calls first, validation second). -/
inductive EndpointStage where
  | googleApiError
  | lengthMismatch422
  | noAddresses422
  | hotelServiceNonzero422
  | proceed
deriving DecidableEq, Repr

/-- Python list indexing with negative-index support, as used by
`service_times[hotel_index]`; `none` models `IndexError`. -/
def pyGet (l : List Int) (i : Int) : Option Int :=
  if 0 ≤ i then
    if h : i.toNat < l.length then some (l.get ⟨i.toNat, h⟩) else none
  else
    if h : (i + l.length).toNat < l.length ∧ 0 ≤ i + l.length then
      some (l.get ⟨(i + l.length).toNat, h.1⟩)
    else none

/-- The error-surfacing order of `get_optimized_route` up to the point where
the routing data is assembled.  `googleOk` abstracts the success of the two
Google API calls inside the `try` block. -/
def get_optimized_route_stage (r : TripOptiIn) (googleOk : Bool) : EndpointStage :=
  -- try-block: time matrix, `addresses.pop(hotel_index)`, eateries, insert
  if ¬ googleOk then EndpointStage.googleApiError
  else if ¬ (-(r.addresses.length : Int) ≤ r.hotel_index ∧
      r.hotel_index < (r.addresses.length : Int)) then
    EndpointStage.googleApiError   -- IndexError from pop, caught, re-raised 500
  -- validation block (pop+insert leave len(addresses) unchanged)
  else if r.addresses.length ≠ r.service_times.length then
    EndpointStage.lengthMismatch422
  else if r.addresses.length < 1 then EndpointStage.noAddresses422
  else if pyGet r.service_times r.hotel_index ≠ some 0 then
    EndpointStage.hotelServiceNonzero422
  else EndpointStage.proceed

/-- The zero-stop request of claim C8. -/
def emptyTripRequest : TripOptiIn :=
  { addresses := [], hotel_index := 0, service_times := [] }

/-- The request of claim C7's counterexample: service times alone can reach
the dinner window, but the day ends before dinner starts. -/
def dinnerEdgeRequest : TripOptiIn :=
  { addresses := ["hotel", "museum"], hotel_index := 0,
    service_times := [0, 600], end_hour := 17, dinner_start_hour := 18,
    dinner_end_hour := 20 }

/-! ### Part 3: the routing model built by `trip_optimizer` and
`_format_solution`

`trip_optimizer` hands OR-tools a single-vehicle model over the nodes of
`data['time_matrix']`:

* transit callback `travel(i,j) + service_times[j]`, also the arc cost;
* a `Time` dimension with `slack_max=0`, `capacity = (end-start)*60` and
  `fix_start_cumul_to_zero=True` — so the cumulative arrival time along the
  route is exactly the running sum of transits, each cumul lies in
  `[0, horizon]`;
* an unconditional disjunction (drop penalty 1000) on every node of
  `range(1, n)` that is not in `eatery_nodes` — there is no soft-mode
  toggle anywhere in the code;
* hard `SetRange` windows on the cumul variables of `lunch_node` /
  `dinner_node` whenever designated (`!= -1`).

A value the solver can return is a visiting order `perm` of a subset of the
non-depot nodes; `admissible` decides whether `perm` satisfies every
constraint of the model above (nodes without a disjunction must be visited;
a designated meal node is an eatery node at every call site, hence visited,
and its arrival must lie inside its window). -/

structure RoutingData where
  time_matrix : List (List Int)
  placeIDs : List String
  service_times : List Int
  eatery_nodes : List Nat
  depot : Nat
  start_hour : Int
  end_hour : Int
  lunch_start_hour : Int
  lunch_end_hour : Int
  dinner_start_hour : Int
  dinner_end_hour : Int
  lunch_node : Int
  dinner_node : Int
deriving DecidableEq, Repr

/-- Number of nodes of the routing model, `len(data['time_matrix'])`. -/
def numNodes (d : RoutingData) : Nat := d.time_matrix.length

/-- `data['time_matrix'][i][j]`. -/
def travelTime (d : RoutingData) (i j : Nat) : Int :=
  (d.time_matrix.getD i []).getD j 0

/-- The transit callback: travel plus service time of the destination. -/
def transitTime (d : RoutingData) (i j : Nat) : Int :=
  travelTime d i j + d.service_times.getD j 0

/-- `horizon = (end_hour - start_hour) * 60`. -/
def horizonOf (d : RoutingData) : Int := (d.end_hour - d.start_hour) * 60

/-- Nodes receiving a drop disjunction: every node of `range(1, n)` not in
`eatery_nodes` — added unconditionally, with penalty 1000. -/
def droppableNode (d : RoutingData) (i : Nat) : Bool :=
  decide (1 ≤ i ∧ i < numNodes d ∧ i ∉ d.eatery_nodes)

/-- Cumulative arrival times along `perm` (then back to the depot), given
the previous node and the time accumulated so far.  With zero slack and the
start cumul fixed to zero this chain is forced by the `Time` dimension. -/
def routeSteps (d : RoutingData) : Nat → Int → List Nat → List (Nat × Int)
  | prev, t, [] => [(d.depot, t + transitTime d prev d.depot)]
  | prev, t, n :: rest =>
    (n, t + transitTime d prev n) :: routeSteps d n (t + transitTime d prev n) rest

/-- The whole timed chain, starting at the depot at time 0. -/
def routeChain (d : RoutingData) (perm : List Nat) : List (Nat × Int) :=
  (d.depot, 0) :: routeSteps d d.depot 0 perm

/-- Arrival time at the first visit of `node` (the depot return excluded
when `node` is visited earlier). -/
def arrivalAt (d : RoutingData) (perm : List Nat) (node : Nat) : Option Int :=
  ((routeSteps d d.depot 0 perm).find? (fun p => p.1 = node)).map (fun p => p.2)

/-- The window posted on a designated meal node `m` with window hours
`[ws, we]`: satisfied iff the node is visited with arrival inside
`[(ws-start)*60, (we-start)*60]` (dropping is impossible: at every call
site `m ∈ eatery_nodes`, which carries no disjunction). -/
def mealWindowOk (d : RoutingData) (perm : List Nat) (m : Int) (ws we : Int) : Bool :=
  if m = -1 then true
  else
    match arrivalAt d perm m.toNat with
    | none => false
    | some c =>
      decide (0 ≤ m ∧ (ws - d.start_hour) * 60 ≤ c ∧ c ≤ (we - d.start_hour) * 60)

/-- `perm` satisfies every constraint of the routing model `trip_optimizer`
builds: well-formed visiting order, mandatory nodes visited, every cumul in
`[0, horizon]`, meal windows hard. -/
def admissible (d : RoutingData) (perm : List Nat) : Bool :=
  perm.Nodup &&
  perm.all (fun i => decide (i < numNodes d) && decide (i ≠ d.depot)) &&
  ((List.range (numNodes d)).all fun i =>
    !(decide (i ≠ d.depot) && decide (i ∉ perm)) || droppableNode d i) &&
  ((routeChain d perm).all fun p => decide (0 ≤ p.2) && decide (p.2 ≤ horizonOf d)) &&
  mealWindowOk d perm d.lunch_node d.lunch_start_hour d.lunch_end_hour &&
  mealWindowOk d perm d.dinner_node d.dinner_start_hour d.dinner_end_hour

/-- One entry of the response route.  `_format_solution` renders the
arrival as `f"{start_hour + t // 60:02d}:{t % 60:02d}"`; the embedding keeps
the underlying cumulative minute value `t`. -/
structure RouteItem where
  route_index : Nat
  place_id : String
  arrival_time : Int
  service_time : Int
  type : String
deriving DecidableEq, Repr

/-- The role label chain of `_format_solution`: depot first, then lunch,
then dinner, else attraction. -/
def nodeTypeOf (d : RoutingData) (node : Nat) : String :=
  if node = d.depot then "Start"
  else if (node : Int) = d.lunch_node then "Lunch"
  else if (node : Int) = d.dinner_node then "Dinner"
  else "Attraction"

/-- A place id from `data['placeIDs']`. -/
def placeOf (d : RoutingData) (node : Nat) : String :=
  d.placeIDs.getD node "?"

/-- `_format_solution`: one item per visited node (the depot start first),
then the explicit `End` item at the depot with the return time. -/
def format_solution (d : RoutingData) (perm : List Nat) : List RouteItem :=
  let chain := routeChain d perm
  let body := chain.dropLast
  let returnTime := (chain.getLastD (d.depot, 0)).2
  (body.enum.map fun e =>
    { route_index := e.1, place_id := placeOf d e.2.1, arrival_time := e.2.2,
      service_time := d.service_times.getD e.2.1 0, type := nodeTypeOf d e.2.1 }) ++
  [{ route_index := body.length, place_id := placeOf d d.depot,
     arrival_time := returnTime, service_time := d.service_times.getD d.depot 0,
     type := "End" }]

/-- Concrete data for claim C3: two nodes, the non-eatery node 1 out of
reach within the horizon (no meal roles designated, so no free-spot
augmentation happens and `eatery_nodes` is empty). -/
def farStopData : RoutingData :=
  { time_matrix := [[0, 1200], [1200, 0]], placeIDs := ["hotel", "island"],
    service_times := [0, 0], eatery_nodes := [], depot := 0,
    start_hour := 9, end_hour := 17, lunch_start_hour := 11,
    lunch_end_hour := 13, dinner_start_hour := 17, dinner_end_hour := 19,
    lunch_node := -1, dinner_node := -1 }

/-- Concrete data for claim C4: the retry search's flipped first retry
assigns both meal roles to the same node (`lunch_node = dinner_node = 2`,
the state reached from `(lunch_index, dinner_index) = (1, 0)` with
`eatery_nodes = [1, 2]`), with overlapping user-supplied windows. -/
def sharedMealData : RoutingData :=
  { time_matrix := [[0, 60, 60], [60, 0, 150], [60, 150, 0]],
    placeIDs := ["hotel", "cafe", "diner"], service_times := [0, 0, 0],
    eatery_nodes := [1, 2], depot := 0,
    start_hour := 9, end_hour := 21, lunch_start_hour := 11,
    lunch_end_hour := 19, dinner_start_hour := 12, dinner_end_hour := 14,
    lunch_node := 2, dinner_node := 2 }

/-- Concrete data with distinct designated lunch and dinner nodes and a
feasible visiting order (used to instantiate the meal-role theorems). -/
def distinctMealData : RoutingData :=
  { time_matrix := [[0, 150, 60], [150, 0, 350], [60, 350, 0]],
    placeIDs := ["hotel", "bistro", "grill"], service_times := [0, 0, 0],
    eatery_nodes := [1, 2], depot := 0,
    start_hour := 9, end_hour := 21, lunch_start_hour := 11,
    lunch_end_hour := 13, dinner_start_hour := 17, dinner_end_hour := 19,
    lunch_node := 1, dinner_node := 2 }

/-! ### Part 4: the cluster allocator (`get_clusters_given_all_locations`)

The endpoint preprocesses locations (resolving coordinates externally),
runs DBSCAN to attach a `cluster_id` to each location, then computes

* the user-preference solution: greedy fill of `requested_days` day slots in
  input order with a persistent `current_day_idx` cursor, overflow rejected;
* the optimal solution: `num_days = max(1, ceil(total/max_hours))` buckets,
  clusters visited by ascending minimum member priority, placed whole into
  the first day with the most remaining capacity when they fit, otherwise
  split member-by-member (priority order) into the best-fit day, overflow
  collected;
* the response: all user-preference slots (day = index+1), the nonempty
  optimal buckets only, and a user-preference `rejected` list obtained by
  appending the (signature-deduplicated) optimal overflow to the
  user-preference rejections and deduplicating once more.

Coordinate resolution and DBSCAN are external; the embedding starts from the
processed locations with their `cluster_id` labels.  Hour arithmetic is done
in `ℚ` (the idealization of Python floats; every comparison the claims rely
on is exact at the concrete inputs used).  `round(x, 6)` is Python's
round-half-to-even. -/

structure Loc where
  latitude : Rat
  longitude : Rat
  priority : Int
  stay_hours : Rat
  place_id : Option String
  cluster_id : Int
deriving DecidableEq, Repr

structure ClusterInput where
  locations : List Loc
  requested_days : Int
  max_hours_per_day : Int
deriving DecidableEq, Repr

/-- The capacity tolerance `1e-6` of `cluster.py`. -/
def tol : Rat := 1 / 1000000

/-- `requested_days = max(1, data.requested_days or 1)` (`or` maps 0 to 1). -/
def requestedDaysOf (inp : ClusterInput) : Nat :=
  (max 1 (if inp.requested_days = 0 then 1 else inp.requested_days)).toNat

/-- `max_hours_per_day = max(1, data.max_hours_per_day or 1)`. -/
def maxHoursOf (inp : ClusterInput) : Rat :=
  ((max 1 (if inp.max_hours_per_day = 0 then 1 else inp.max_hours_per_day) : Int) : Rat)

/-- `xs[i].append(x)` on a list-of-lists. -/
def appendAt (slots : List (List Loc)) (i : Nat) (x : Loc) : List (List Loc) :=
  slots.set i (slots.getD i [] ++ [x])

/-- `xs[i].extend(ys)` on a list-of-lists. -/
def extendAt (slots : List (List Loc)) (i : Nat) (ys : List Loc) : List (List Loc) :=
  slots.set i (slots.getD i [] ++ ys)

/-- `hrs[i] += x`. -/
def addAt (hrs : List Rat) (i : Nat) (x : Rat) : List Rat :=
  hrs.set i (hrs.getD i 0 + x)

/-- Sum of the stay hours of a list of locations. -/
def sumStay (ls : List Loc) : Rat := ls.foldl (fun a l => a + l.stay_hours) 0

/-- State of the user-preference greedy fill. -/
structure PrefState where
  day_slots : List (List Loc)
  day_hours : List Rat
  rejected : List Loc
  current_day_idx : Nat
deriving Repr

/-- The `while current_day_idx < requested_days and day_hours[...] + stay >
max + 1e-6: current_day_idx += 1` loop. -/
def advanceDay (H : Rat) (R : Nat) (hrs : List Rat) (stay : Rat) (idx : Nat) : Nat :=
  if h : idx < R ∧ hrs.getD idx 0 + stay > H + tol then
    advanceDay H R hrs stay (idx + 1)
  else idx
termination_by R - idx
decreasing_by omega

/-- One iteration of the user-preference loop. -/
def prefStep (H : Rat) (R : Nat) (s : PrefState) (loc : Loc) : PrefState :=
  if s.current_day_idx ≥ R then { s with rejected := s.rejected ++ [loc] }
  else if s.day_hours.getD s.current_day_idx 0 + loc.stay_hours ≤ H + tol then
    { s with day_slots := appendAt s.day_slots s.current_day_idx loc,
             day_hours := addAt s.day_hours s.current_day_idx loc.stay_hours }
  else
    let idx := advanceDay H R s.day_hours loc.stay_hours s.current_day_idx
    if idx ≥ R then { s with rejected := s.rejected ++ [loc], current_day_idx := idx }
    else
      { s with day_slots := appendAt s.day_slots idx loc,
               day_hours := addAt s.day_hours idx loc.stay_hours,
               current_day_idx := idx }

def initPrefState (R : Nat) : PrefState :=
  { day_slots := List.replicate R [], day_hours := List.replicate R 0,
    rejected := [], current_day_idx := 0 }

/-- The whole user-preference pass. -/
def prefRun (inp : ClusterInput) : PrefState :=
  inp.locations.foldl (prefStep (maxHoursOf inp) (requestedDaysOf inp))
    (initPrefState (requestedDaysOf inp))

/-- Distinct cluster ids in first-occurrence order (`clusters_dict` keys). -/
def clusterIdsOf (locs : List Loc) : List Int :=
  locs.foldl (fun acc l => if l.cluster_id ∈ acc then acc else acc ++ [l.cluster_id]) []

/-- The members of one cluster, in input order (`clusters_dict` values). -/
def clusterLocsOf (locs : List Loc) (cid : Int) : List Loc :=
  locs.filter (fun l => l.cluster_id = cid)

/-- `min(loc["priority"] for loc in cluster)` (clusters are nonempty). -/
def minPriorityOf (ls : List Loc) : Int :=
  match ls with
  | [] => 0
  | x :: xs => xs.foldl (fun m y => min m y.priority) x.priority

/-- Stable insertion by ascending key: the new element goes after every
element of equal key, as Python's stable `sorted` arranges. -/
def stableInsert {α : Type} (key : α → Rat) (x : α) : List α → List α
  | [] => [x]
  | y :: ys => if key x < key y then x :: y :: ys else y :: stableInsert key x ys

/-- Stable sort by ascending key, the model of Python `sorted(..., key=...)`
(and, with a negated key, of `sorted(..., reverse=True)`). -/
def stableSortBy {α : Type} (key : α → Rat) (l : List α) : List α :=
  l.foldl (fun acc x => stableInsert key x acc) []

/-- Maximum of a list of rationals (first argument wins ties). -/
def maxRatOf : List Rat → Rat
  | [] => 0
  | x :: xs => xs.foldl max x

/-- Index of the first maximal element — Python `max(range(n), key=...)`
returns the first maximizer. -/
def argmaxFirst : List Rat → Nat
  | [] => 0
  | [_] => 0
  | x :: y :: ys => if x ≥ maxRatOf (y :: ys) then 0 else argmaxFirst (y :: ys) + 1

/-- State of the optimal (cluster-aware best-fit) pass. -/
structure OptState where
  day_buckets : List (List Loc)
  day_bucket_hours : List Rat
  overflow : List Loc
deriving Repr

/-- Best-fit placement of a single split-off location: days ordered by
descending remaining capacity (stable, so ties keep ascending day index),
first day within tolerance wins, otherwise overflow. -/
def placeLoc (H : Rat) (numDays : Nat) (st : OptState) (loc : Loc) : OptState :=
  let dayIndices := stableSortBy
    (fun idx => -(H - st.day_bucket_hours.getD idx 0)) (List.range numDays)
  match dayIndices.find?
      (fun idx => st.day_bucket_hours.getD idx 0 + loc.stay_hours ≤ H + tol) with
  | some dayIdx =>
    { st with day_buckets := appendAt st.day_buckets dayIdx loc,
              day_bucket_hours := addAt st.day_bucket_hours dayIdx loc.stay_hours }
  | none => { st with overflow := st.overflow ++ [loc] }

/-- One cluster of the optimal pass: try the whole cluster in the day with
the most remaining capacity, else split it member by member. -/
def optClusterStep (H : Rat) (numDays : Nat) (locs : List Loc)
    (st : OptState) (cid : Int) : OptState :=
  let cluster_sorted := stableSortBy (fun l => (l.priority : Rat)) (clusterLocsOf locs cid)
  let cluster_hours := sumStay cluster_sorted
  let remaining := st.day_bucket_hours.map (fun used => H - used)
  let best_day := argmaxFirst remaining
  if cluster_hours ≤ remaining.getD best_day 0 then
    { st with day_buckets := extendAt st.day_buckets best_day cluster_sorted,
              day_bucket_hours := addAt st.day_bucket_hours best_day cluster_hours }
  else
    cluster_sorted.foldl (placeLoc H numDays) st

/-- `num_days = max(1, ceil(total_stay_hours / max_hours_per_day))`. -/
def numDaysOf (inp : ClusterInput) : Nat :=
  (max 1 ⌈sumStay inp.locations / maxHoursOf inp⌉).toNat

def initOptState (numDays : Nat) : OptState :=
  { day_buckets := List.replicate numDays [],
    day_bucket_hours := List.replicate numDays 0, overflow := [] }

/-- Clusters ordered by ascending minimum member priority (stable). -/
def clusterOrderOf (inp : ClusterInput) : List Int :=
  stableSortBy (fun cid => ((minPriorityOf (clusterLocsOf inp.locations cid) : Int) : Rat))
    (clusterIdsOf inp.locations)

/-- The whole optimal pass. -/
def optRun (inp : ClusterInput) : OptState :=
  (clusterOrderOf inp).foldl
    (optClusterStep (maxHoursOf inp) (numDaysOf inp) inp.locations)
    (initOptState (numDaysOf inp))

/-- The user-preference days of the response: every slot, numbered from 1. -/
def userPrefDaysOf (inp : ClusterInput) : List (Nat × List Loc) :=
  ((prefRun inp).day_slots).enum.map (fun e => (e.1 + 1, e.2))

/-- The optimal days of the response: only the nonempty buckets survive the
`if day_locs` filter, keeping their original numbering. -/
def optimalDaysOf (inp : ClusterInput) : List (Nat × List Loc) :=
  ((optRun inp).day_buckets).enum.filterMap
    (fun e => if e.2 ≠ [] then some (e.1 + 1, e.2) else none)

/-- Python `round` (half to even). -/
def pyRound (q : Rat) : Int :=
  let f := ⌊q⌋
  let frac := q - f
  if frac < 1 / 2 then f
  else if 1 / 2 < frac then f + 1
  else if f % 2 = 0 then f else f + 1

/-- `round(x, 6)`. -/
def round6 (q : Rat) : Rat := ((pyRound (q * 1000000) : Int) : Rat) / 1000000

/-- The deduplication signature `(round(lat,6), round(lng,6), place_id,
priority)`. -/
def sigKey (l : Loc) : Rat × Rat × Option String × Int :=
  (round6 l.latitude, round6 l.longitude, l.place_id, l.priority)

/-- Append each overflow location whose signature was not seen among the
previously appended overflow locations (`overflow_signatures` starts empty). -/
def mergeOverflow (rejected overflow : List Loc) : List Loc :=
  (overflow.foldl
    (fun st l => if sigKey l ∈ st.2 then st else (st.1 ++ [l], st.2 ++ [sigKey l]))
    (rejected, ([] : List (Rat × Rat × Option String × Int)))).1

/-- The final signature-deduplication pass producing `rejected_unique`. -/
def dedupByKey (ls : List Loc) : List Loc :=
  (ls.foldl
    (fun st l => if sigKey l ∈ st.2 then st else (st.1 ++ [l], st.2 ++ [sigKey l]))
    (([] : List Loc), ([] : List (Rat × Rat × Option String × Int)))).1

/-- `solution1_rejected` after the overflow merge. -/
def mergedRejectedOf (inp : ClusterInput) : List Loc :=
  mergeOverflow (prefRun inp).rejected (optRun inp).overflow

/-- The `rejected` list of the user-preference solution in the response. -/
def rejectedUniqueOf (inp : ClusterInput) : List Loc :=
  dedupByKey (mergedRejectedOf inp)

/-- Three 5-hour single-location clusters (claim C2's counterexample):
policy (a) accepts all three across three requested days, while policy (b)
has only `ceil(15/8) = 2` buckets and overflows the last one. -/
def locA : Loc :=
  { latitude := 1, longitude := 1, priority := 1, stay_hours := 5,
    place_id := none, cluster_id := 0 }

def locB : Loc :=
  { latitude := 2, longitude := 2, priority := 2, stay_hours := 5,
    place_id := none, cluster_id := 1 }

def locC : Loc :=
  { latitude := 3, longitude := 3, priority := 3, stay_hours := 5,
    place_id := none, cluster_id := 2 }

def threeFivesInput : ClusterInput :=
  { locations := [locA, locB, locC], requested_days := 3, max_hours_per_day := 8 }

/-- A single 14-hour stop (claim C5's counterexample): `ceil(14/8) = 2`
buckets, but the stop fits in neither, so no day is emitted. -/
def oneBigStopInput : ClusterInput :=
  { locations := [{ latitude := 5, longitude := 5, priority := 1, stay_hours := 14,
                    place_id := none, cluster_id := 0 }],
    requested_days := 1, max_hours_per_day := 8 }

/-- The loop invariant of the user-preference pass: the `day_hours` array
tracks the stay-hour sum of each slot, and every slot is within budget. -/
def PrefInvariant (H : Rat) (R : Nat) (s : PrefState) : Prop :=
  s.day_slots.length = R ∧ s.day_hours.length = R ∧
  (∀ i, s.day_hours.getD i 0 = sumStay (s.day_slots.getD i [])) ∧
  (∀ i, s.day_hours.getD i 0 ≤ H + tol)

/-- The loop invariant of the optimal (best-fit) pass. -/
def OptInvariant (H : Rat) (n : Nat) (st : OptState) : Prop :=
  st.day_buckets.length = n ∧ st.day_bucket_hours.length = n ∧
  (∀ i, st.day_bucket_hours.getD i 0 = sumStay (st.day_buckets.getD i [])) ∧
  (∀ i, st.day_bucket_hours.getD i 0 ≤ H + tol)

/-- A single 20-hour stop (claim C10's shrinking-day-count witness). -/
def hugeStopInput : ClusterInput :=
  { locations := [{ latitude := 7, longitude := 7, priority := 1, stay_hours := 20,
                    place_id := none, cluster_id := 0 }],
    requested_days := 2, max_hours_per_day := 8 }

/-! ### Theorems -/

theorem getD_set_self {α : Type} (x d : α) :
    ∀ (l : List α) (i : Nat), i < l.length → (l.set i x).getD i d = x := by
  intro l
  induction l with
  | nil => intro i h; simp at h
  | cons a as ih =>
    intro i h
    cases i with
    | zero => rfl
    | succ j => exact ih j (by simpa using h)

theorem getD_set_ne {α : Type} (x d : α) :
    ∀ (l : List α) (i j : Nat), i ≠ j → (l.set i x).getD j d = l.getD j d := by
  intro l
  induction l with
  | nil => intro i j _; simp
  | cons a as ih =>
    intro i j hne
    cases i with
    | zero =>
      cases j with
      | zero => exact absurd rfl hne
      | succ m => rfl
    | succ n =>
      cases j with
      | zero => rfl
      | succ m => exact ih n m (by omega)

theorem getD_replicate {α : Type} (d : α) (R i : Nat) :
    (List.replicate R d).getD i d = d := by
  induction R generalizing i with
  | zero => simp
  | succ n ih =>
    cases i with
    | zero => rfl
    | succ j => exact ih j

theorem sumStay_foldl (c : Rat) (l : List Loc) :
    List.foldl (fun a x => a + x.stay_hours) c l = c + sumStay l := by
  induction l generalizing c with
  | nil => simp [sumStay]
  | cons x xs ih =>
    have hx : sumStay (x :: xs) = 0 + x.stay_hours + sumStay xs := by
      show List.foldl (fun a x => a + x.stay_hours) 0 (x :: xs) = _
      rw [List.foldl_cons, ih]
    rw [List.foldl_cons, ih, hx]
    ring

theorem sumStay_append (l₁ l₂ : List Loc) :
    sumStay (l₁ ++ l₂) = sumStay l₁ + sumStay l₂ := by
  unfold sumStay
  rw [List.foldl_append, sumStay_foldl]
  rfl

theorem tol_nonneg : 0 ≤ tol := by norm_num [tol]

theorem maxHoursOf_pos (inp : ClusterInput) : 1 ≤ maxHoursOf inp := by
  unfold maxHoursOf
  have h : (1 : Int) ≤ max 1 (if inp.max_hours_per_day = 0 then 1
      else inp.max_hours_per_day) := le_max_left _ _
  exact_mod_cast h

/-- The day-advance loop stops only at an exhausted cursor or a day where
the location fits within tolerance. -/
theorem advanceDay_spec (H : Rat) (R : Nat) (hrs : List Rat) (stay : Rat) :
    ∀ idx, ¬(advanceDay H R hrs stay idx < R ∧
      hrs.getD (advanceDay H R hrs stay idx) 0 + stay > H + tol) := by
  have key : ∀ n idx, R - idx ≤ n → ¬(advanceDay H R hrs stay idx < R ∧
      hrs.getD (advanceDay H R hrs stay idx) 0 + stay > H + tol) := by
    intro n
    induction n with
    | zero =>
      intro idx h
      rw [advanceDay]
      rw [dif_neg (by intro hc; omega)]
      omega
    | succ m ih =>
      intro idx h
      rw [advanceDay]
      split
      · next hc => exact ih (idx + 1) (by omega)
      · next hc =>
        intro hcon
        exact hc ⟨hcon.1, hcon.2⟩
  intro idx
  exact key (R - idx) idx (le_refl _)

/-- Tracking update: appending one location to slot `i` and adding its stay
to `hours[i]` keeps the hour array in sync with the slots. -/
theorem sync_update (slots : List (List Loc)) (hours : List Rat) (i : Nat) (loc : Loc)
    (hlen : hours.length = slots.length)
    (hsync : ∀ j, hours.getD j 0 = sumStay (slots.getD j [])) :
    ∀ j, (addAt hours i loc.stay_hours).getD j 0 =
      sumStay ((appendAt slots i loc).getD j []) := by
  intro j
  by_cases hij : i = j
  · subst hij
    by_cases hlt : i < hours.length
    · rw [addAt, getD_set_self _ _ _ _ hlt, appendAt,
        getD_set_self _ _ _ _ (by omega), sumStay_append, hsync i]
      simp [sumStay]
    · rw [addAt, List.set_eq_of_length_le (by omega), appendAt,
        List.set_eq_of_length_le (by omega)]
      exact hsync i
  · rw [addAt, getD_set_ne _ _ _ _ _ hij, appendAt, getD_set_ne _ _ _ _ _ hij]
    exact hsync j

/-- Tracking update for whole-cluster extension. -/
theorem sync_extend (slots : List (List Loc)) (hours : List Rat) (i : Nat) (ys : List Loc)
    (hlen : hours.length = slots.length)
    (hsync : ∀ j, hours.getD j 0 = sumStay (slots.getD j [])) :
    ∀ j, (addAt hours i (sumStay ys)).getD j 0 =
      sumStay ((extendAt slots i ys).getD j []) := by
  intro j
  by_cases hij : i = j
  · subst hij
    by_cases hlt : i < hours.length
    · rw [addAt, getD_set_self _ _ _ _ hlt, extendAt,
        getD_set_self _ _ _ _ (by omega), sumStay_append, hsync i]
    · rw [addAt, List.set_eq_of_length_le (by omega), extendAt,
        List.set_eq_of_length_le (by omega)]
      exact hsync i
  · rw [addAt, getD_set_ne _ _ _ _ _ hij, extendAt, getD_set_ne _ _ _ _ _ hij]
    exact hsync j

/-- Budget update: adding `x` to `hours[i]` keeps every entry within `B`
provided the updated entry still fits. -/
theorem bound_update (hours : List Rat) (i : Nat) (x B : Rat)
    (hb : ∀ j, hours.getD j 0 ≤ B) (hi : hours.getD i 0 + x ≤ B) :
    ∀ j, (addAt hours i x).getD j 0 ≤ B := by
  intro j
  by_cases hij : i = j
  · subst hij
    by_cases hlt : i < hours.length
    · rw [addAt, getD_set_self _ _ _ _ hlt]; exact hi
    · rw [addAt, List.set_eq_of_length_le (by omega)]; exact hb i
  · rw [addAt, getD_set_ne _ _ _ _ _ hij]; exact hb j

/-- Each recursive step of the retry search records exactly one solver
attempt, so the attempt list is never longer than the fuel. -/
theorem trip_optimizer_attempts_le (k : Nat) (solve : Int → Int → Bool) :
    ∀ fuel l d flip, (trip_optimizer k solve fuel l d flip).2.length ≤ fuel := by
  intro fuel
  induction fuel with
  | zero => intro l d flip; simp [trip_optimizer]
  | succ n ih =>
    intro l d flip
    simp only [trip_optimizer]
    split
    · simp
    · split
      · simp
      · split
        · simpa using ih _ _ _
        · split
          · simpa using ih _ _ _
          · split
            · simpa using ih _ _ _
            · simp

theorem bumpIdx_zero : bumpIdx 0 = 1 := rfl

theorem bumpIdx_of_pos {x : Int} (h : 1 ≤ x) : bumpIdx x = x := by
  unfold bumpIdx; rw [if_neg (by omega)]

theorem bumpIdx_nonneg {x : Int} (h : 0 ≤ x) : 1 ≤ bumpIdx x := by
  unfold bumpIdx; split <;> omega

/-- On states with a nonnegative lunch index the `effDinner` mutation is the
bump of the dinner index. -/
theorem effDinner_eq_bumpIdx (l d : Int) (hl : 0 ≤ l) : effDinner l d = bumpIdx d := by
  unfold effDinner bumpIdx
  have hne : l ≠ -1 := by omega
  by_cases hd : d = 0
  · rw [if_pos ⟨hne, hd⟩, if_pos hd, hd]
    decide
  · rw [if_neg (by tauto), if_neg hd]

/-- Fuel above the measure never runs out: every recursive call of the
retry search decreases `searchMeasure` and stays inside `searchInvariant`. -/
theorem trip_optimizer_no_fuel_out (k : Nat) (solve : Int → Int → Bool) :
    ∀ fuel l d flip, searchInvariant k l d flip →
      searchMeasure k l d flip < fuel →
      (trip_optimizer k solve fuel l d flip).1 ≠ SearchOutcome.outOfFuel := by
  intro fuel
  induction fuel with
  | zero => intro l d flip _ hm; omega
  | succ n ih =>
    intro l d flip hinv hm
    simp only [trip_optimizer]
    split
    · simp
    · split
      · simp
      · split
        · -- flip = false: recurse on (effDinner l d, l, true)
          next hflip =>
          rw [hflip] at hinv hm
          simp only [searchInvariant] at hinv
          simp only [searchMeasure] at hm
          have hl0 : 0 ≤ l := by rcases hinv with ⟨h1, _⟩ | ⟨h1, h2, h3⟩ <;> omega
          rw [effDinner_eq_bumpIdx l d hl0]
          have hinvN : searchInvariant k (bumpIdx d) l true := by
            simp only [searchInvariant]
            rcases hinv with ⟨h1, h2⟩ | ⟨h1, h2, h3⟩
            · subst h1; subst h2; exact Or.inl ⟨rfl, rfl⟩
            · rw [bumpIdx_of_pos (by omega : (1 : Int) ≤ d)]
              exact Or.inr ⟨h1, h2, h3⟩
          have hmN : searchMeasure k (bumpIdx d) l true < n := by
            simp only [searchMeasure]
            rcases hinv with ⟨h1, h2⟩ | ⟨h1, h2, h3⟩
            · subst h1; subst h2; simp only [bumpIdx_zero] at hm ⊢; omega
            · rw [bumpIdx_of_pos (by omega : (1 : Int) ≤ d)] at hm ⊢
              rw [bumpIdx_of_pos (by omega : (1 : Int) ≤ l)] at hm ⊢
              omega
          simpa using ih (bumpIdx d) l true hinvN hmN
        · next hflip =>
          -- flip = true: the restored pair is (effDinner l d, l)
          have hft : flip = true := by
            cases flip
            · exact absurd rfl hflip
            · rfl
          rw [hft] at hinv hm
          simp only [searchInvariant] at hinv
          simp only [searchMeasure] at hm
          have hl0 : 0 ≤ l := by rcases hinv with ⟨h1, _⟩ | ⟨h1, h2, h3⟩ <;> omega
          have hd0 : 0 ≤ d := by rcases hinv with ⟨_, h2⟩ | ⟨h1, h2, h3⟩ <;> omega
          have hl1 : 1 ≤ l := by rcases hinv with ⟨h1, _⟩ | ⟨h1, h2, h3⟩ <;> omega
          rw [effDinner_eq_bumpIdx l d hl0]
          have hb1 : 1 ≤ bumpIdx d := bumpIdx_nonneg hd0
          have hble : bumpIdx d ≤ l := by
            rcases hinv with ⟨h1, h2⟩ | ⟨h1, h2, h3⟩
            · rw [h1, h2, bumpIdx_zero]
            · rw [bumpIdx_of_pos (by omega : (1 : Int) ≤ d)]; omega
          split
          · -- dinner advance: recurse on (bumpIdx d, l + 1, false)
            next hadv =>
            have hinvN : searchInvariant k (bumpIdx d) (l + 1) false := by
              exact Or.inr ⟨by omega, by omega, by omega⟩
            have hmN : searchMeasure k (bumpIdx d) (l + 1) false < n := by
              simp only [searchMeasure]
              rw [bumpIdx_of_pos hb1, bumpIdx_of_pos (by omega : (1 : Int) ≤ l + 1)]
              omega
            simpa using ih (bumpIdx d) (l + 1) false hinvN hmN
          · split
            · -- lunch advance: recurse on (bumpIdx d + 1, bumpIdx d + 2, false)
              next hadv2 =>
              have hinvN : searchInvariant k (bumpIdx d + 1) (bumpIdx d + 2) false := by
                simp only [searchInvariant]
                exact Or.inr ⟨by omega, by omega, by omega⟩
              have hmN : searchMeasure k (bumpIdx d + 1) (bumpIdx d + 2) false < n := by
                simp only [searchMeasure]
                rw [bumpIdx_of_pos (by omega : (1 : Int) ≤ bumpIdx d + 1),
                  bumpIdx_of_pos (by omega : (1 : Int) ≤ bumpIdx d + 2)]
                have ha2 : (bumpIdx d).toNat + 2 < k := by omega
                have e1 : (bumpIdx d + 1).toNat = (bumpIdx d).toNat + 1 := by omega
                have e2 : (bumpIdx d + 2).toNat = (bumpIdx d).toNat + 2 := by omega
                rw [e1, e2]
                have hsplit : k * (k - (bumpIdx d).toNat) =
                    k * (k - ((bumpIdx d).toNat + 1)) + k := by
                  rw [show k - (bumpIdx d).toNat = (k - ((bumpIdx d).toNat + 1)) + 1 by omega,
                    Nat.mul_succ]
                omega
              simpa using ih (bumpIdx d + 1) (bumpIdx d + 2) false hinvN hmN
            · simp

/-- Claim C9.  For every eligible-node count `k` and every solver outcome
oracle, the recursive retry search started from the endpoint's initial state
`(0, 0, False)` terminates — fuel `2k² + 2k + 2` is never exhausted — after
at most `2k² + 2k + 2` solver attempts (an `O(k²)` bound). -/
theorem claim_C9_search_terminates (k : Nat) (solve : Int → Int → Bool) :
    (trip_optimizer k solve (2 * k * k + 2 * k + 2) 0 0 false).1 ≠
      SearchOutcome.outOfFuel ∧
    (trip_optimizer k solve (2 * k * k + 2 * k + 2) 0 0 false).2.length ≤
      2 * k * k + 2 * k + 2 := by
  constructor
  · apply trip_optimizer_no_fuel_out
    · exact Or.inl ⟨rfl, rfl⟩
    · simp only [searchMeasure, bumpIdx_zero, Int.toNat_one]
      have hmul : k * (k - 1) ≤ k * k := Nat.mul_le_mul_left k (Nat.sub_le k 1)
      have hassoc : 2 * k * k = 2 * (k * k) := by ring
      omega
  · exact trip_optimizer_attempts_le k solve _ 0 0 false

/-- Claim C1.  The meal-role retry search does not implement the documented
"flip lunch and dinner places" step: with `k = 2` eligible nodes and a
solver failing on every attempt, starting from the endpoint's initial call
`(lunch_index, dinner_index, flip) = (0, 0, False)`, the search attempts
only the index pairs `(0, 1)` and `(1, 1)` — the flipped call re-applies
the `dinner_index == 0` bump and solves with lunch and dinner both at
`E[1]` — then declares the day infeasible without ever attempting the
swapped orientation `(1, 0)`. -/
theorem claim_C1_flip_never_swaps :
    trip_optimizer 2 (fun _ _ => false) 10 0 0 false =
      (SearchOutcome.noSolution, [(0, 1), (1, 1)]) ∧
    (1, 0) ∉ (trip_optimizer 2 (fun _ _ => false) 10 0 0 false).2 := by
  decide

/-- Claim C7 (counterexample).  A request whose service times alone can
reach the dinner window (`600 + 10·2 ≥ (18-9)·60`) but whose day ends
before dinner starts is dinner-skipped by the code, while the spec's
conjunctive skip condition does not hold there. -/
theorem claim_C7_counterexample :
    dinner_index_of dinnerEdgeRequest = -1 ∧ ¬ spec_dinner_skipped dinnerEdgeRequest := by
  decide

/-- Claim C7 (amended).  Lunch is skipped exactly when the day starts at or
after the lunch window's end; dinner is skipped exactly when the minimum
cumulative service time cannot plausibly reach the dinner window's start
**or** the day ends at or before the dinner window's start (the code
designates dinner only when both reachability and day-end conditions
hold). -/
theorem claim_C7_skip_conditions (r : TripOptiIn) :
    (lunch_index_of r = -1 ↔ r.lunch_end_hour ≤ r.start_hour) ∧
    (dinner_index_of r = -1 ↔
      (intSum r.service_times + 10 * (r.addresses.length : Int) <
          (r.dinner_start_hour - r.start_hour) * 60 ∨
        r.end_hour ≤ r.dinner_start_hour)) := by
  constructor
  · unfold lunch_index_of
    split
    · constructor
      · intro h; omega
      · intro h; omega
    · constructor
      · intro _; omega
      · intro _; rfl
  · unfold dinner_index_of
    split
    · constructor
      · intro h; omega
      · intro h; omega
    · constructor
      · intro _; omega
      · intro _; rfl

theorem placeLoc_buckets_length (H : Rat) (n : Nat) (st : OptState) (loc : Loc) :
    ((placeLoc H n st loc).day_buckets).length = st.day_buckets.length := by
  simp only [placeLoc]
  split
  · simp [appendAt]
  · rfl

theorem foldl_placeLoc_buckets_length (H : Rat) (n : Nat) (ls : List Loc) :
    ∀ st : OptState,
      ((ls.foldl (placeLoc H n) st).day_buckets).length = st.day_buckets.length := by
  induction ls with
  | nil => intro st; rfl
  | cons x xs ih =>
    intro st
    rw [List.foldl_cons, ih, placeLoc_buckets_length]

theorem optClusterStep_buckets_length (H : Rat) (n : Nat) (locs : List Loc)
    (st : OptState) (cid : Int) :
    ((optClusterStep H n locs st cid).day_buckets).length = st.day_buckets.length := by
  simp only [optClusterStep]
  split
  · simp [extendAt]
  · rw [foldl_placeLoc_buckets_length]

theorem foldl_optClusterStep_buckets_length (H : Rat) (n : Nat) (locs : List Loc)
    (cids : List Int) : ∀ st : OptState,
      ((cids.foldl (optClusterStep H n locs) st).day_buckets).length =
        st.day_buckets.length := by
  induction cids with
  | nil => intro st; rfl
  | cons c cs ih =>
    intro st
    rw [List.foldl_cons, ih, optClusterStep_buckets_length]

/-- The optimal pass always works with exactly `numDaysOf` buckets. -/
theorem optRun_buckets_length (inp : ClusterInput) :
    ((optRun inp).day_buckets).length = numDaysOf inp := by
  unfold optRun
  rw [foldl_optClusterStep_buckets_length]
  simp [initOptState]

/-- Claim C5 (counterexample).  A single 14-hour stop with
`max_hours_per_day = 8`: the computed minimum day count is
`ceil(14/8) = 2`, but the stop fits into no bucket, both buckets stay
empty, and the emitted optimal solution has 0 days — not 2. -/
theorem claim_C5_counterexample :
    ⌈sumStay oneBigStopInput.locations / maxHoursOf oneBigStopInput⌉ = 2 ∧
    numDaysOf oneBigStopInput = 2 ∧
    (optimalDaysOf oneBigStopInput).length = 0 := by
  with_unfolding_all decide

/-- Claim C5 (amended).  The optimal policy allocates into exactly
`max(1, ceil(total stay / max_hours_per_day))` buckets, and the whole
optimal solution is independent of `requested_days`; but only nonempty
buckets are emitted, so the returned day count is at most that bucket
count and can be smaller. -/
theorem claim_C5_day_count (inp : ClusterInput) :
    ((optRun inp).day_buckets).length = numDaysOf inp ∧
    (∀ r : Int, optimalDaysOf { inp with requested_days := r } = optimalDaysOf inp) ∧
    (optimalDaysOf inp).length ≤ numDaysOf inp := by
  refine ⟨optRun_buckets_length inp, fun r => rfl, ?_⟩
  calc (optimalDaysOf inp).length
      ≤ ((optRun inp).day_buckets).enum.length := List.length_filterMap_le _ _
    _ = numDaysOf inp := by rw [List.enum_length, optRun_buckets_length]

/-- Claim C10.  Every day emitted in the optimal solution is nonempty (the
`if day_locs` filter removes empty buckets), and the emitted day count can
be strictly smaller than the computed minimum day count: with one 20-hour
stop and `max_hours_per_day = 8`, `numDays = 3` but 0 days are emitted. -/
theorem claim_C10_nonempty_days :
    (∀ inp : ClusterInput, ∀ day ∈ optimalDaysOf inp, day.2 ≠ []) ∧
    (optimalDaysOf hugeStopInput).length < numDaysOf hugeStopInput := by
  constructor
  · intro inp day hday
    unfold optimalDaysOf at hday
    obtain ⟨e, _, he⟩ := List.mem_filterMap.mp hday
    by_cases hne : e.2 ≠ []
    · rw [if_pos hne] at he
      cases he
      exact hne
    · rw [if_neg hne] at he
      cases he
  · with_unfolding_all decide

/-- Witness for claim C10's nonemptiness half at a concrete emitted day. -/
theorem claim_C10_nonempty_days_witness :
    ((1, [locA]) : Nat × List Loc) ∈ optimalDaysOf threeFivesInput ∧
    ((1, [locA]) : Nat × List Loc).2 ≠ [] :=
  ⟨by with_unfolding_all decide,
   claim_C10_nonempty_days.1 threeFivesInput (1, [locA])
     (by with_unfolding_all decide)⟩

theorem getD_eq_get {α : Type} (d : α) :
    ∀ (l : List α) (i : Nat) (h : i < l.length), l.getD i d = l.get ⟨i, h⟩ := by
  intro l
  induction l with
  | nil => intro i h; simp at h
  | cons a as ih =>
    intro i h
    cases i with
    | zero => rfl
    | succ j => exact ih j (by simpa using h)

theorem numDaysOf_pos (inp : ClusterInput) : 1 ≤ numDaysOf inp := by
  unfold numDaysOf
  have h : (1 : Int) ≤ max 1 ⌈sumStay inp.locations / maxHoursOf inp⌉ := le_max_left _ _
  omega

theorem remaining_getD (H : Rat) :
    ∀ (hours : List Rat) (i : Nat), i < hours.length →
      (hours.map (fun used => H - used)).getD i 0 = H - hours.getD i 0 := by
  intro hours
  induction hours with
  | nil => intro i h; simp at h
  | cons a as ih =>
    intro i h
    cases i with
    | zero => rfl
    | succ j => exact ih j (by simpa using h)

theorem argmaxFirst_lt (l : List Rat) (h : l ≠ []) : argmaxFirst l < l.length := by
  induction l with
  | nil => exact absurd rfl h
  | cons x xs ih =>
    cases xs with
    | nil => simp [argmaxFirst]
    | cons y ys =>
      rw [argmaxFirst]
      split
      · simp
      · have h2 := ih (by simp)
        simp only [List.length_cons] at h2 ⊢
        omega

theorem prefStep_invariant (H : Rat) (R : Nat) (s : PrefState) (loc : Loc)
    (h : PrefInvariant H R s) : PrefInvariant H R (prefStep H R s loc) := by
  obtain ⟨h1, h2, h3, h4⟩ := h
  simp only [prefStep]
  split
  · exact ⟨h1, h2, h3, h4⟩
  · split
    · next hidx hfit =>
      exact ⟨by simpa [appendAt] using h1, by simpa [addAt] using h2,
        sync_update s.day_slots s.day_hours s.current_day_idx loc (by omega) h3,
        bound_update s.day_hours s.current_day_idx loc.stay_hours (H + tol) h4 hfit⟩
    · split
      · exact ⟨h1, h2, h3, h4⟩
      · next hlt =>
        have hspec := advanceDay_spec H R s.day_hours loc.stay_hours s.current_day_idx
        have hfit : s.day_hours.getD
            (advanceDay H R s.day_hours loc.stay_hours s.current_day_idx) 0 +
            loc.stay_hours ≤ H + tol := by
          by_contra hc
          exact hspec ⟨by omega, by linarith⟩
        exact ⟨by simpa [appendAt] using h1, by simpa [addAt] using h2,
          sync_update s.day_slots s.day_hours _ loc (by omega) h3,
          bound_update s.day_hours _ loc.stay_hours (H + tol) h4 hfit⟩

theorem foldl_prefStep_invariant (H : Rat) (R : Nat) (locs : List Loc) :
    ∀ s, PrefInvariant H R s → PrefInvariant H R (locs.foldl (prefStep H R) s) := by
  induction locs with
  | nil => intro s h; exact h
  | cons x xs ih =>
    intro s h
    rw [List.foldl_cons]
    exact ih _ (prefStep_invariant H R s x h)

theorem prefRun_invariant (inp : ClusterInput) :
    PrefInvariant (maxHoursOf inp) (requestedDaysOf inp) (prefRun inp) := by
  unfold prefRun
  apply foldl_prefStep_invariant
  refine ⟨by simp [initPrefState], by simp [initPrefState], ?_, ?_⟩
  · intro i
    show (List.replicate _ (0 : Rat)).getD i 0 =
      sumStay ((List.replicate _ ([] : List Loc)).getD i [])
    rw [getD_replicate, getD_replicate]
    rfl
  · intro i
    show (List.replicate _ (0 : Rat)).getD i 0 ≤ _
    rw [getD_replicate]
    have := maxHoursOf_pos inp
    have := tol_nonneg
    linarith

theorem placeLoc_invariant (H : Rat) (n : Nat) (st : OptState) (loc : Loc)
    (h : OptInvariant H n st) : OptInvariant H n (placeLoc H n st loc) := by
  obtain ⟨h1, h2, h3, h4⟩ := h
  simp only [placeLoc]
  split
  · next dayIdx hfind =>
    have hfit : st.day_bucket_hours.getD dayIdx 0 + loc.stay_hours ≤ H + tol := by
      have hp := List.find?_some hfind
      simpa using hp
    exact ⟨by simpa [appendAt] using h1, by simpa [addAt] using h2,
      sync_update st.day_buckets st.day_bucket_hours dayIdx loc (by omega) h3,
      bound_update st.day_bucket_hours dayIdx loc.stay_hours (H + tol) h4 hfit⟩
  · exact ⟨h1, h2, h3, h4⟩

theorem foldl_placeLoc_invariant (H : Rat) (n : Nat) (ls : List Loc) :
    ∀ st, OptInvariant H n st → OptInvariant H n (ls.foldl (placeLoc H n) st) := by
  induction ls with
  | nil => intro st h; exact h
  | cons x xs ih =>
    intro st h
    rw [List.foldl_cons]
    exact ih _ (placeLoc_invariant H n st x h)

theorem optClusterStep_invariant (H : Rat) (n : Nat) (locs : List Loc)
    (st : OptState) (cid : Int) (hn : 1 ≤ n) (h : OptInvariant H n st) :
    OptInvariant H n (optClusterStep H n locs st cid) := by
  obtain ⟨h1, h2, h3, h4⟩ := h
  simp only [optClusterStep]
  split
  · next hfitWhole =>
    have hblt : argmaxFirst (st.day_bucket_hours.map (fun used => H - used)) <
        st.day_bucket_hours.length := by
      have hlen : (st.day_bucket_hours.map (fun used => H - used)).length =
          st.day_bucket_hours.length := by simp
      have hne : st.day_bucket_hours.map (fun used => H - used) ≠ [] := by
        apply List.ne_nil_of_length_pos
        omega
      have := argmaxFirst_lt _ hne
      omega
    rw [remaining_getD H st.day_bucket_hours _ hblt] at hfitWhole
    have hfit : st.day_bucket_hours.getD
        (argmaxFirst (st.day_bucket_hours.map (fun used => H - used))) 0 +
        sumStay (stableSortBy (fun l => (l.priority : Rat)) (clusterLocsOf locs cid)) ≤
        H + tol := by
      have := tol_nonneg
      linarith
    exact ⟨by simpa [extendAt] using h1, by simpa [addAt] using h2,
      sync_extend st.day_buckets st.day_bucket_hours _ _ (by omega) h3,
      bound_update st.day_bucket_hours _ _ (H + tol) h4 hfit⟩
  · exact foldl_placeLoc_invariant H n _ st ⟨h1, h2, h3, h4⟩

theorem foldl_optClusterStep_invariant (H : Rat) (n : Nat) (locs : List Loc)
    (cids : List Int) (hn : 1 ≤ n) :
    ∀ st, OptInvariant H n st →
      OptInvariant H n (cids.foldl (optClusterStep H n locs) st) := by
  induction cids with
  | nil => intro st h; exact h
  | cons c cs ih =>
    intro st h
    rw [List.foldl_cons]
    exact ih _ (optClusterStep_invariant H n locs st c hn h)

theorem optRun_invariant (inp : ClusterInput) :
    OptInvariant (maxHoursOf inp) (numDaysOf inp) (optRun inp) := by
  unfold optRun
  apply foldl_optClusterStep_invariant _ _ _ _ (numDaysOf_pos inp)
  refine ⟨by simp [initOptState], by simp [initOptState], ?_, ?_⟩
  · intro i
    show (List.replicate _ (0 : Rat)).getD i 0 =
      sumStay ((List.replicate _ ([] : List Loc)).getD i [])
    rw [getD_replicate, getD_replicate]
    rfl
  · intro i
    show (List.replicate _ (0 : Rat)).getD i 0 ≤ _
    rw [getD_replicate]
    have := maxHoursOf_pos inp
    have := tol_nonneg
    linarith

/-- Decomposition of the admissibility predicate into its constraint
components. -/
theorem admissible_parts (d : RoutingData) (perm : List Nat)
    (h : admissible d perm = true) :
    perm.Nodup ∧ (∀ i ∈ perm, i < numNodes d ∧ i ≠ d.depot) ∧
    (∀ i, i < numNodes d → i ≠ d.depot → i ∉ perm → droppableNode d i = true) ∧
    mealWindowOk d perm d.lunch_node d.lunch_start_hour d.lunch_end_hour = true ∧
    mealWindowOk d perm d.dinner_node d.dinner_start_hour d.dinner_end_hour = true := by
  unfold admissible at h
  simp only [Bool.and_eq_true] at h
  obtain ⟨⟨⟨⟨⟨hnd, hmem⟩, hcov⟩, _⟩, hlun⟩, hdin⟩ := h
  refine ⟨by simpa using hnd, ?_, ?_, hlun, hdin⟩
  · intro i hi
    have hx := List.all_eq_true.mp hmem i hi
    simpa using hx
  · intro i hin hid hnotin
    have hx := List.all_eq_true.mp hcov i (List.mem_range.mpr hin)
    rw [decide_eq_true hid, decide_eq_true hnotin] at hx
    simpa using hx

/-- Claim C3 (counterexample).  The drop disjunction is installed with no
mode toggle in sight: at `farStopData` the non-eatery stop 1 carries a drop
penalty, the route that omits it is admissible, and no admissible route can
contain it (its travel time exceeds the horizon) — so the produced route
omits a non-depot input stop while the day is not declared infeasible. -/
theorem claim_C3_counterexample :
    droppableNode farStopData 1 = true ∧
    admissible farStopData [] = true ∧
    admissible farStopData [1] = false := by
  decide

/-- Claim C3 (amended).  Hard constraints are never relaxed: every eatery
node (hence every designated meal node) must appear in any admissible route —
only non-eatery nodes carry the (unconditional, always-on) drop disjunction.
At `farStopData` every admissible route omits stop 1 even though no
soft-constraint mode was enabled (none exists in the code). -/
theorem claim_C3_drop_semantics :
    (∀ (d : RoutingData) (perm : List Nat), admissible d perm = true →
      ∀ i ∈ d.eatery_nodes, i < numNodes d → i ≠ d.depot → i ∈ perm) ∧
    (∀ perm : List Nat, admissible farStopData perm = true → 1 ∉ perm) := by
  constructor
  · intro d perm hadm i hie hin hid
    obtain ⟨-, -, hcov, -, -⟩ := admissible_parts d perm hadm
    by_contra hnotin
    have hd := hcov i hin hid hnotin
    unfold droppableNode at hd
    simp only [decide_eq_true_eq] at hd
    exact hd.2.2 hie
  · intro perm hadm hmem
    obtain ⟨hnd, hmemcond, -, -, -⟩ := admissible_parts farStopData perm hadm
    have hall : ∀ x ∈ perm, x = 1 := by
      intro x hx
      have hb := hmemcond x hx
      have h2 : numNodes farStopData = 2 := rfl
      have hdep : farStopData.depot = 0 := rfl
      omega
    have hperm : perm = [1] := by
      cases perm with
      | nil => simp at hmem
      | cons p ps =>
        have hp : p = 1 := hall p (by simp)
        cases ps with
        | nil => rw [hp]
        | cons q qs =>
          have hq : q = 1 := hall q (by simp)
          rw [List.nodup_cons] at hnd
          exact absurd (by simp [hp, hq] : p ∈ q :: qs) hnd.1
    rw [hperm] at hadm
    exact absurd hadm (by decide)

/-- Witness for claim C3's mandatory-visit half: the eatery node 1 of
`sharedMealData` appears in the admissible route `[1, 2]`. -/
theorem claim_C3_drop_semantics_witness :
    admissible sharedMealData [1, 2] = true ∧ (1 : Nat) ∈ ([1, 2] : List Nat) :=
  ⟨by decide,
   claim_C3_drop_semantics.1 sharedMealData [1, 2] (by decide) 1 (by decide)
     (by decide) (by decide)⟩

theorem routeSteps_map_fst (d : RoutingData) :
    ∀ (l : List Nat) (prev : Nat) (t : Int),
      (routeSteps d prev t l).map Prod.fst = l ++ [d.depot] := by
  intro l
  induction l with
  | nil => intro prev t; rfl
  | cons n rest ih =>
    intro prev t
    simp only [routeSteps, List.map_cons, ih, List.cons_append]

theorem routeSteps_ne_nil (d : RoutingData) (prev : Nat) (t : Int) (l : List Nat) :
    routeSteps d prev t l ≠ [] := by
  cases l <;> simp [routeSteps]

theorem countP_enumFrom {α : Type} (q : α → Bool) :
    ∀ (l : List α) (n : Nat),
      (List.enumFrom n l).countP (fun e => q e.2) = l.countP q := by
  intro l
  induction l with
  | nil => intro n; rfl
  | cons x xs ih =>
    intro n
    simp only [List.enumFrom, List.countP_cons, ih]

theorem snd_mem_of_mem_enumFrom {α : Type} :
    ∀ (l : List α) (n : Nat) (e : Nat × α), e ∈ List.enumFrom n l → e.2 ∈ l := by
  intro l
  induction l with
  | nil => intro n e h; simp at h
  | cons x xs ih =>
    intro n e h
    rcases List.mem_cons.mp h with h | h
    · rw [h]; exact List.mem_cons_self _ _
    · exact List.mem_cons_of_mem _ (ih _ _ h)

theorem eq_of_countP_le_one {α : Type} (p : α → Bool) :
    ∀ (l : List α), l.countP p ≤ 1 →
      ∀ a ∈ l, ∀ b ∈ l, p a = true → p b = true → a = b := by
  intro l
  induction l with
  | nil => intro _ a ha; simp at ha
  | cons x xs ih =>
    intro hle a ha b hb hpa hpb
    rw [List.countP_cons] at hle
    rcases List.mem_cons.mp ha with rfl | ha' <;> rcases List.mem_cons.mp hb with h | hb'
    · rw [h]
    · rw [if_pos hpa] at hle
      have hz : xs.countP p = 0 := by omega
      exact absurd hpb ((List.countP_eq_zero.mp hz) b hb')
    · rw [h] at hpb
      rw [if_pos hpb] at hle
      have hz : xs.countP p = 0 := by omega
      exact absurd hpa ((List.countP_eq_zero.mp hz) a ha')
    · refine ih ?_ a ha' b hb' hpa hpb
      by_cases hx : p x = true
      · rw [if_pos hx] at hle; omega
      · rw [if_neg hx] at hle; omega

theorem countP_congr_mem {α : Type} (p q : α → Bool) :
    ∀ l : List α, (∀ a ∈ l, p a = q a) → l.countP p = l.countP q := by
  intro l
  induction l with
  | nil => intro _; rfl
  | cons x xs ih =>
    intro h
    rw [List.countP_cons, List.countP_cons, ih (fun a ha => h a (List.mem_cons_of_mem _ ha)),
      h x (List.mem_cons_self _ _)]

theorem countP_eq_one_of_nodup_mem {α : Type} [DecidableEq α] (x : α) :
    ∀ l : List α, l.Nodup → x ∈ l → l.countP (fun a => a = x) = 1 := by
  intro l
  induction l with
  | nil => intro _ h; simp at h
  | cons y ys ih =>
    intro hnd hm
    rw [List.nodup_cons] at hnd
    rw [List.countP_cons]
    by_cases hxy : y = x
    · rw [if_pos (by simpa using hxy)]
      have hz : ys.countP (fun a => a = x) = 0 := by
        rw [List.countP_eq_zero]
        intro a ha hc
        simp only [decide_eq_true_eq] at hc
        refine hnd.1 ?_
        rw [hxy, ← hc]
        exact ha
      omega
    · rw [if_neg (by simpa using hxy)]
      have hm' : x ∈ ys := by
        rcases List.mem_cons.mp hm with h | h
        · exact absurd h.symm hxy
        · exact h
      simpa using ih hnd.2 hm'

theorem map_dropLast_eq {α β : Type} (f : α → β) :
    ∀ l : List α, l.dropLast.map f = (l.map f).dropLast := by
  intro l
  induction l with
  | nil => rfl
  | cons x xs ih =>
    cases xs with
    | nil => rfl
    | cons y ys =>
      have h1 : (x :: y :: ys).dropLast = x :: (y :: ys).dropLast := rfl
      have h2 : ((x :: y :: ys).map f).dropLast = f x :: ((y :: ys).map f).dropLast := rfl
      rw [h1, List.map_cons, ih, h2]

theorem nodeTypeOf_depot (d : RoutingData) : nodeTypeOf d d.depot = "Start" := by
  unfold nodeTypeOf
  rw [if_pos rfl]

theorem nodeTypeOf_eq_lunch (d : RoutingData) (node : Nat)
    (h : nodeTypeOf d node = "Lunch") :
    node ≠ d.depot ∧ (node : Int) = d.lunch_node := by
  unfold nodeTypeOf at h
  by_cases h1 : node = d.depot
  · rw [if_pos h1] at h; exact absurd h (by decide)
  · rw [if_neg h1] at h
    by_cases h2 : (node : Int) = d.lunch_node
    · exact ⟨h1, h2⟩
    · rw [if_neg h2] at h
      by_cases h3 : (node : Int) = d.dinner_node
      · rw [if_pos h3] at h; exact absurd h (by decide)
      · rw [if_neg h3] at h; exact absurd h (by decide)

theorem nodeTypeOf_eq_dinner (d : RoutingData) (node : Nat)
    (h : nodeTypeOf d node = "Dinner") :
    node ≠ d.depot ∧ (node : Int) ≠ d.lunch_node ∧ (node : Int) = d.dinner_node := by
  unfold nodeTypeOf at h
  by_cases h1 : node = d.depot
  · rw [if_pos h1] at h; exact absurd h (by decide)
  · rw [if_neg h1] at h
    by_cases h2 : (node : Int) = d.lunch_node
    · rw [if_pos h2] at h; exact absurd h (by decide)
    · rw [if_neg h2] at h
      by_cases h3 : (node : Int) = d.dinner_node
      · exact ⟨h1, h2, h3⟩
      · rw [if_neg h3] at h; exact absurd h (by decide)

theorem nodeTypeOf_lunch_intro (d : RoutingData) (node : Nat)
    (h1 : node ≠ d.depot) (h2 : (node : Int) = d.lunch_node) :
    nodeTypeOf d node = "Lunch" := by
  unfold nodeTypeOf
  rw [if_neg h1, if_pos h2]

theorem nodeTypeOf_dinner_intro (d : RoutingData) (node : Nat)
    (h1 : node ≠ d.depot) (h2 : (node : Int) ≠ d.lunch_node)
    (h3 : (node : Int) = d.dinner_node) : nodeTypeOf d node = "Dinner" := by
  unfold nodeTypeOf
  rw [if_neg h1, if_neg h2, if_pos h3]

theorem mealWindowOk_spec (d : RoutingData) (perm : List Nat) (m ws we : Int)
    (h : mealWindowOk d perm m ws we = true) (hm : m ≠ -1) :
    ∃ c, arrivalAt d perm m.toNat = some c ∧ 0 ≤ m ∧
      (ws - d.start_hour) * 60 ≤ c ∧ c ≤ (we - d.start_hour) * 60 := by
  unfold mealWindowOk at h
  rw [if_neg hm] at h
  cases harr : arrivalAt d perm m.toNat with
  | none => rw [harr] at h; simp at h
  | some c =>
    rw [harr] at h
    simp only [decide_eq_true_eq] at h
    exact ⟨c, rfl, h.1, h.2.1, h.2.2⟩

/-- An `arrivalAt` hit pins down a timed pair of the step chain at the
requested node. -/
theorem arrivalAt_some (d : RoutingData) (perm : List Nat) (x : Nat) (c : Int)
    (h : arrivalAt d perm x = some c) :
    ∃ pr, pr ∈ routeSteps d d.depot 0 perm ∧ pr.1 = x ∧ pr.2 = c := by
  unfold arrivalAt at h
  obtain ⟨pr, hfind, hsnd⟩ := Option.map_eq_some'.mp h
  refine ⟨pr, List.mem_of_find?_eq_some hfind, ?_, hsnd⟩
  have := List.find?_some hfind
  simpa using this

/-- The node lying behind a meal-window hit is visited by `perm`. -/
theorem arrivalAt_mem_perm (d : RoutingData) (perm : List Nat) (x : Nat) (c : Int)
    (h : arrivalAt d perm x = some c) (hx : x ≠ d.depot) : x ∈ perm := by
  obtain ⟨pr, hmem, hfst, _⟩ := arrivalAt_some d perm x c h
  have hmap : pr.1 ∈ (routeSteps d d.depot 0 perm).map Prod.fst :=
    List.mem_map_of_mem _ hmem
  rw [routeSteps_map_fst, hfst] at hmap
  rcases List.mem_append.mp hmap with h | h
  · exact h
  · simp only [List.mem_singleton] at h
    exact absurd h hx

/-- A visited node has exactly one timed pair in the step chain. -/
theorem steps_fst_countP (d : RoutingData) (perm : List Nat) (x : Nat)
    (hnd : perm.Nodup) (hx : x ∈ perm) (hxd : x ≠ d.depot) :
    (routeSteps d d.depot 0 perm).countP (fun pr => pr.1 = x) = 1 := by
  have h1 : (routeSteps d d.depot 0 perm).countP (fun pr => pr.1 = x) =
      ((routeSteps d d.depot 0 perm).map Prod.fst).countP (fun v => v = x) := by
    rw [List.countP_map]
    rfl
  rw [h1, routeSteps_map_fst, List.countP_append,
    countP_eq_one_of_nodup_mem x perm hnd hx]
  simp [hxd, Ne.symm hxd]

/-- The chain of formatted body entries: depot head plus one entry per
visited node. -/
theorem routeChain_dropLast (d : RoutingData) (perm : List Nat) :
    (routeChain d perm).dropLast =
      (d.depot, 0) :: (routeSteps d d.depot 0 perm).dropLast := by
  unfold routeChain
  cases hsteps : routeSteps d d.depot 0 perm with
  | nil => exact absurd hsteps (routeSteps_ne_nil d d.depot 0 perm)
  | cons a as => rfl

theorem steps_dropLast_map_fst (d : RoutingData) (perm : List Nat) :
    (routeSteps d d.depot 0 perm).dropLast.map Prod.fst = perm := by
  rw [map_dropLast_eq, routeSteps_map_fst, List.dropLast_concat]

theorem countP_singleton {α : Type} (p : α → Bool) (x : α) :
    ([x] : List α).countP p = if p x then 1 else 0 := by
  rw [List.countP_cons, List.countP_nil, Nat.zero_add]

theorem countP_enum_node (d : RoutingData) (ty : String) (l : List (Nat × Int)) :
    l.enum.countP (fun e => nodeTypeOf d e.2.1 = ty) =
      l.countP (fun pr => nodeTypeOf d pr.1 = ty) := by
  have h : l.enum = List.enumFrom 0 l := rfl
  rw [h]
  exact countP_enumFrom (fun pr => decide (nodeTypeOf d pr.1 = ty)) l 0

/-- The role-count of a formatted route reduces to a node count over the
visiting order, for any role other than `Start`/`End`. -/
theorem format_countP (d : RoutingData) (perm : List Nat) (ty : String)
    (hS : ¬ ("Start" = ty)) (hE : ¬ ("End" = ty)) :
    (format_solution d perm).countP (fun it => it.type = ty) =
      perm.countP (fun x => nodeTypeOf d x = ty) := by
  unfold format_solution
  rw [List.countP_append, countP_singleton]
  have hcond : ¬ (decide (("End" : String) = ty) = true) := by simpa using hE
  rw [if_neg hcond, Nat.add_zero]
  have hmap : ((routeChain d perm).dropLast.enum.map fun e =>
      ({ route_index := e.1, place_id := placeOf d e.2.1, arrival_time := e.2.2,
         service_time := d.service_times.getD e.2.1 0,
         type := nodeTypeOf d e.2.1 } : RouteItem)).countP (fun it => it.type = ty) =
      (routeChain d perm).dropLast.enum.countP (fun e => nodeTypeOf d e.2.1 = ty) := by
    rw [List.countP_map]
    rfl
  rw [hmap, countP_enum_node, routeChain_dropLast, List.countP_cons]
  have hstart : (decide (nodeTypeOf d d.depot = ty)) ≠ true := by
    rw [nodeTypeOf_depot]
    simpa using hS
  rw [if_neg hstart]
  have hsteps : (routeSteps d d.depot 0 perm).dropLast.countP
      (fun pr => nodeTypeOf d pr.1 = ty) =
      ((routeSteps d d.depot 0 perm).dropLast.map Prod.fst).countP
        (fun x => nodeTypeOf d x = ty) := by
    rw [List.countP_map]
    rfl
  rw [hsteps, steps_dropLast_map_fst, Nat.add_zero]

theorem flatten_appendAt_perm (x : Loc) :
    ∀ (l : List (List Loc)) (i : Nat), i < l.length →
      (appendAt l i x).flatten.Perm (x :: l.flatten) := by
  intro l
  induction l with
  | nil => intro i h; simp at h
  | cons a as ih =>
    intro i h
    cases i with
    | zero =>
      show ((a ++ [x]) :: as).flatten.Perm (x :: (a :: as).flatten)
      rw [List.flatten_cons, List.flatten_cons]
      exact List.Perm.append_right as.flatten (List.perm_append_singleton x a)
    | succ j =>
      show (a :: appendAt as j x).flatten.Perm (x :: (a :: as).flatten)
      rw [List.flatten_cons, List.flatten_cons]
      exact (List.Perm.append_left a (ih j (by simpa using h))).trans
        List.perm_middle

theorem flatten_extendAt_perm (ys : List Loc) :
    ∀ (l : List (List Loc)) (i : Nat), i < l.length →
      (extendAt l i ys).flatten.Perm (ys ++ l.flatten) := by
  intro l
  induction l with
  | nil => intro i h; simp at h
  | cons a as ih =>
    intro i h
    cases i with
    | zero =>
      show ((a ++ ys) :: as).flatten.Perm (ys ++ (a :: as).flatten)
      rw [List.flatten_cons, List.flatten_cons, ← List.append_assoc]
      exact List.Perm.append_right as.flatten List.perm_append_comm
    | succ j =>
      show (a :: extendAt as j ys).flatten.Perm (ys ++ (a :: as).flatten)
      rw [List.flatten_cons, List.flatten_cons]
      have hmid : ((a ++ ys) ++ as.flatten).Perm ((ys ++ a) ++ as.flatten) :=
        List.Perm.append_right as.flatten List.perm_append_comm
      rw [List.append_assoc, List.append_assoc] at hmid
      exact (List.Perm.append_left a (ih j (by simpa using h))).trans hmid

theorem stableInsert_perm {α : Type} (key : α → Rat) (x : α) :
    ∀ l : List α, (stableInsert key x l).Perm (x :: l) := by
  intro l
  induction l with
  | nil => exact List.Perm.refl _
  | cons y ys ih =>
    rw [stableInsert]
    split
    · exact List.Perm.refl _
    · exact (ih.cons y).trans (List.Perm.swap x y ys)

theorem stableSortBy_foldl_perm {α : Type} (key : α → Rat) :
    ∀ (l acc : List α),
      (l.foldl (fun acc x => stableInsert key x acc) acc).Perm (l ++ acc) := by
  intro l
  induction l with
  | nil => intro acc; simp
  | cons x xs ih =>
    intro acc
    rw [List.foldl_cons]
    exact (ih (stableInsert key x acc)).trans
      ((List.Perm.append_left xs (stableInsert_perm key x acc)).trans
        List.perm_middle)

theorem stableSortBy_perm {α : Type} (key : α → Rat) (l : List α) :
    (stableSortBy key l).Perm l := by
  unfold stableSortBy
  have h := stableSortBy_foldl_perm key l []
  rw [List.append_nil] at h
  exact h

theorem flatten_replicate_nil (R : Nat) :
    (List.replicate R ([] : List Loc)).flatten = [] := by
  induction R with
  | zero => rfl
  | succ n ih => simp [ih]

theorem prefStep_slots_length (H : Rat) (R : Nat) (s : PrefState) (loc : Loc) :
    (prefStep H R s loc).day_slots.length = s.day_slots.length := by
  simp only [prefStep]
  split
  · rfl
  · split
    · simp [appendAt]
    · split
      · rfl
      · simp [appendAt]

theorem prefStep_alloc_perm (H : Rat) (R : Nat) (s : PrefState) (loc : Loc)
    (hlen : s.day_slots.length = R) :
    ((prefStep H R s loc).day_slots.flatten ++ (prefStep H R s loc).rejected).Perm
      (loc :: (s.day_slots.flatten ++ s.rejected)) := by
  simp only [prefStep]
  split
  · show (s.day_slots.flatten ++ (s.rejected ++ [loc])).Perm _
    rw [← List.append_assoc]
    exact List.perm_append_singleton loc _
  · split
    · next hidx hfit =>
      exact List.Perm.append_right s.rejected
        (flatten_appendAt_perm loc s.day_slots s.current_day_idx (by omega))
    · split
      · show (s.day_slots.flatten ++ (s.rejected ++ [loc])).Perm _
        rw [← List.append_assoc]
        exact List.perm_append_singleton loc _
      · next hlt =>
        exact List.Perm.append_right s.rejected
          (flatten_appendAt_perm loc s.day_slots _ (by omega))

theorem foldl_prefStep_alloc_perm (H : Rat) (R : Nat) (locs : List Loc) :
    ∀ s : PrefState, s.day_slots.length = R →
      ((locs.foldl (prefStep H R) s).day_slots.flatten ++
        (locs.foldl (prefStep H R) s).rejected).Perm
        (locs ++ (s.day_slots.flatten ++ s.rejected)) := by
  induction locs with
  | nil => intro s _; simp
  | cons x xs ih =>
    intro s hlen
    rw [List.foldl_cons]
    exact (ih _ (by rw [prefStep_slots_length]; exact hlen)).trans
      ((List.Perm.append_left xs (prefStep_alloc_perm H R s x hlen)).trans
        List.perm_middle)

/-- The user-preference pass distributes every input stop into exactly one
bag: the day slots plus the policy's own rejected list are a permutation of
the input. -/
theorem prefRun_alloc_perm (inp : ClusterInput) :
    ((prefRun inp).day_slots.flatten ++ (prefRun inp).rejected).Perm inp.locations := by
  unfold prefRun
  have h := foldl_prefStep_alloc_perm (maxHoursOf inp) (requestedDaysOf inp)
    inp.locations (initPrefState (requestedDaysOf inp)) (by simp [initPrefState])
  refine h.trans ?_
  simp [initPrefState, flatten_replicate_nil]

theorem foldl_placeLoc_hours_length (H : Rat) (n : Nat) (ls : List Loc) :
    ∀ st : OptState,
      ((ls.foldl (placeLoc H n) st).day_bucket_hours).length =
        st.day_bucket_hours.length := by
  induction ls with
  | nil => intro st; rfl
  | cons x xs ih =>
    intro st
    rw [List.foldl_cons, ih]
    simp only [placeLoc]
    split
    · simp [addAt]
    · rfl

theorem optClusterStep_hours_length (H : Rat) (n : Nat) (locs : List Loc)
    (st : OptState) (cid : Int) :
    (optClusterStep H n locs st cid).day_bucket_hours.length =
      st.day_bucket_hours.length := by
  simp only [optClusterStep]
  split
  · simp [addAt]
  · rw [foldl_placeLoc_hours_length]

theorem placeLoc_alloc_perm (H : Rat) (n : Nat) (st : OptState) (loc : Loc)
    (hlen : st.day_buckets.length = n) :
    ((placeLoc H n st loc).day_buckets.flatten ++ (placeLoc H n st loc).overflow).Perm
      (loc :: (st.day_buckets.flatten ++ st.overflow)) := by
  simp only [placeLoc]
  split
  · next dayIdx hfind =>
    have hmem := List.mem_of_find?_eq_some hfind
    have hlt : dayIdx < n := by
      have hr : dayIdx ∈ List.range n :=
        ((stableSortBy_perm _ (List.range n)).mem_iff).mp hmem
      simpa using hr
    exact List.Perm.append_right st.overflow
      (flatten_appendAt_perm loc st.day_buckets dayIdx (by omega))
  · show (st.day_buckets.flatten ++ (st.overflow ++ [loc])).Perm _
    rw [← List.append_assoc]
    exact List.perm_append_singleton loc _

theorem foldl_placeLoc_alloc_perm (H : Rat) (n : Nat) (ls : List Loc) :
    ∀ st : OptState, st.day_buckets.length = n →
      ((ls.foldl (placeLoc H n) st).day_buckets.flatten ++
        (ls.foldl (placeLoc H n) st).overflow).Perm
        (ls ++ (st.day_buckets.flatten ++ st.overflow)) := by
  induction ls with
  | nil => intro st _; simp
  | cons x xs ih =>
    intro st hlen
    rw [List.foldl_cons]
    exact (ih _ (by rw [placeLoc_buckets_length]; exact hlen)).trans
      ((List.Perm.append_left xs (placeLoc_alloc_perm H n st x hlen)).trans
        List.perm_middle)

theorem optClusterStep_alloc_perm (H : Rat) (n : Nat) (locs : List Loc)
    (st : OptState) (cid : Int) (hlen : st.day_buckets.length = n)
    (hlen2 : st.day_bucket_hours.length = n) (hn : 1 ≤ n) :
    ((optClusterStep H n locs st cid).day_buckets.flatten ++
      (optClusterStep H n locs st cid).overflow).Perm
      (clusterLocsOf locs cid ++ (st.day_buckets.flatten ++ st.overflow)) := by
  simp only [optClusterStep]
  split
  · have hblt : argmaxFirst (st.day_bucket_hours.map (fun used => H - used)) < n := by
      have hne : st.day_bucket_hours.map (fun used => H - used) ≠ [] := by
        apply List.ne_nil_of_length_pos
        simp only [List.length_map]
        omega
      have h := argmaxFirst_lt _ hne
      simp only [List.length_map] at h
      omega
    have hext := List.Perm.append_right st.overflow
      (flatten_extendAt_perm
        (stableSortBy (fun l => (l.priority : Rat)) (clusterLocsOf locs cid))
        st.day_buckets
        (argmaxFirst (st.day_bucket_hours.map (fun used => H - used))) (by omega))
    rw [List.append_assoc] at hext
    exact hext.trans (List.Perm.append_right _ (stableSortBy_perm _ _))
  · exact (foldl_placeLoc_alloc_perm H n _ st hlen).trans
      (List.Perm.append_right _ (stableSortBy_perm _ _))

theorem foldl_optClusterStep_alloc_perm (H : Rat) (n : Nat) (locs : List Loc)
    (cids : List Int) (hn : 1 ≤ n) :
    ∀ st : OptState, st.day_buckets.length = n → st.day_bucket_hours.length = n →
      ((cids.foldl (optClusterStep H n locs) st).day_buckets.flatten ++
        (cids.foldl (optClusterStep H n locs) st).overflow).Perm
        ((cids.map (clusterLocsOf locs)).flatten ++
          (st.day_buckets.flatten ++ st.overflow)) := by
  induction cids with
  | nil => intro st _ _; simp
  | cons c cs ih =>
    intro st h1 h2
    rw [List.foldl_cons, List.map_cons, List.flatten_cons, List.append_assoc]
    have hmid : ((cs.map (clusterLocsOf locs)).flatten ++ clusterLocsOf locs c).Perm
        (clusterLocsOf locs c ++ (cs.map (clusterLocsOf locs)).flatten) :=
      List.perm_append_comm
    have hmid2 := List.Perm.append_right (st.day_buckets.flatten ++ st.overflow) hmid
    rw [List.append_assoc, List.append_assoc] at hmid2
    exact ((ih _ (by rw [optClusterStep_buckets_length]; exact h1)
        (by rw [optClusterStep_hours_length]; exact h2)).trans
      (List.Perm.append_left _
        (optClusterStep_alloc_perm H n locs st c h1 h2 hn))).trans hmid2

theorem flatten_map_insert_perm (x : Loc) (f g : Int → List Loc) (c0 : Int)
    (hg1 : g c0 = x :: f c0) (hg2 : ∀ c, c ≠ c0 → g c = f c) :
    ∀ cids : List Int, cids.Nodup → c0 ∈ cids →
      ((cids.map g).flatten).Perm (x :: (cids.map f).flatten) := by
  intro cids
  induction cids with
  | nil => intro _ h; simp at h
  | cons c cs ih =>
    intro hnd hc0
    rw [List.nodup_cons] at hnd
    by_cases hcc : c = c0
    · subst hcc
      have hmap : cs.map g = cs.map f :=
        List.map_congr_left (fun a ha => hg2 a (fun hac => hnd.1 (hac ▸ ha)))
      rw [List.map_cons, List.map_cons, List.flatten_cons, List.flatten_cons, hg1, hmap]
      exact List.Perm.refl _
    · have hc0' : c0 ∈ cs := by
        rcases List.mem_cons.mp hc0 with h | h
        · exact absurd h.symm hcc
        · exact h
      rw [List.map_cons, List.map_cons, List.flatten_cons, List.flatten_cons, hg2 c hcc]
      exact (List.Perm.append_left (f c) (ih hnd.2 hc0')).trans List.perm_middle

theorem flatten_map_clusterLocs_nil (cids : List Int) :
    ((cids.map (clusterLocsOf [])).flatten) = [] := by
  induction cids with
  | nil => rfl
  | cons c cs ih => simp [clusterLocsOf, ih]

/-- Grouping by cluster id partitions the input: the concatenation of the
clusters over any duplicate-free, covering id list is a permutation of the
locations. -/
theorem filter_partition_perm :
    ∀ (locs : List Loc) (cids : List Int), cids.Nodup →
      (∀ l ∈ locs, l.cluster_id ∈ cids) →
      ((cids.map (clusterLocsOf locs)).flatten).Perm locs := by
  intro locs
  induction locs with
  | nil =>
    intro cids _ _
    rw [flatten_map_clusterLocs_nil]
  | cons x xs ih =>
    intro cids hnd hcov
    have hx : x.cluster_id ∈ cids := hcov x (List.mem_cons_self _ _)
    have hrec := ih cids hnd (fun l hl => hcov l (List.mem_cons_of_mem _ hl))
    have hg1 : clusterLocsOf (x :: xs) x.cluster_id =
        x :: clusterLocsOf xs x.cluster_id := by
      unfold clusterLocsOf
      rw [List.filter_cons, if_pos (by simp)]
    have hg2 : ∀ c, c ≠ x.cluster_id →
        clusterLocsOf (x :: xs) c = clusterLocsOf xs c := by
      intro c hc
      unfold clusterLocsOf
      rw [List.filter_cons, if_neg (by simpa using fun h => hc h.symm)]
    exact (flatten_map_insert_perm x (clusterLocsOf xs) (clusterLocsOf (x :: xs))
      x.cluster_id hg1 hg2 cids hnd hx).trans (hrec.cons x)

theorem clusterIds_foldl_nodup :
    ∀ (locs : List Loc) (acc : List Int), acc.Nodup →
      (locs.foldl
        (fun acc l => if l.cluster_id ∈ acc then acc else acc ++ [l.cluster_id])
        acc).Nodup := by
  intro locs
  induction locs with
  | nil => intro acc h; exact h
  | cons x xs ih =>
    intro acc h
    rw [List.foldl_cons]
    apply ih
    split
    · exact h
    · next hmem =>
      refine h.append (List.nodup_singleton _) ?_
      intro a ha hb
      simp only [List.mem_singleton] at hb
      exact hmem (hb ▸ ha)

theorem clusterIds_foldl_mem :
    ∀ (locs : List Loc) (acc : List Int) (c : Int),
      (c ∈ acc ∨ ∃ l ∈ locs, l.cluster_id = c) →
      c ∈ locs.foldl
        (fun acc l => if l.cluster_id ∈ acc then acc else acc ++ [l.cluster_id])
        acc := by
  intro locs
  induction locs with
  | nil =>
    intro acc c h
    rcases h with h | ⟨l, hl, _⟩
    · exact h
    · simp at hl
  | cons x xs ih =>
    intro acc c h
    rw [List.foldl_cons]
    apply ih
    rcases h with h | ⟨l, hl, hlc⟩
    · left
      split
      · exact h
      · exact List.mem_append_left _ h
    · rcases List.mem_cons.mp hl with heq | hl'
      · left
        rw [heq] at hlc
        split
        · next hmem => exact hlc ▸ hmem
        · exact List.mem_append_right _ (by simp [hlc])
      · exact Or.inr ⟨l, hl', hlc⟩

theorem clusterIdsOf_nodup (locs : List Loc) : (clusterIdsOf locs).Nodup :=
  clusterIds_foldl_nodup locs [] List.nodup_nil

theorem clusterIdsOf_complete (locs : List Loc) :
    ∀ l ∈ locs, l.cluster_id ∈ clusterIdsOf locs :=
  fun l hl => clusterIds_foldl_mem locs [] _ (Or.inr ⟨l, hl, rfl⟩)

/-- The optimal pass distributes every input stop into exactly one bag:
the day buckets plus the overflow list are a permutation of the input. -/
theorem optRun_alloc_perm (inp : ClusterInput) :
    ((optRun inp).day_buckets.flatten ++ (optRun inp).overflow).Perm inp.locations := by
  unfold optRun
  have h := foldl_optClusterStep_alloc_perm (maxHoursOf inp) (numDaysOf inp)
    inp.locations (clusterOrderOf inp) (numDaysOf_pos inp)
    (initOptState (numDaysOf inp)) (by simp [initOptState]) (by simp [initOptState])
  refine h.trans ?_
  have h2 : (((clusterOrderOf inp).map (clusterLocsOf inp.locations)).flatten).Perm
      inp.locations := by
    refine (List.Perm.flatten ((stableSortBy_perm _ (clusterIdsOf inp.locations)).map
      (clusterLocsOf inp.locations))).trans ?_
    exact filter_partition_perm inp.locations _ (clusterIdsOf_nodup _)
      (clusterIdsOf_complete _)
  simpa [initOptState, flatten_replicate_nil] using h2

/-- Claim C2 (counterexample).  Three 5-hour single-stop clusters with
`requested_days = 3` and `max_hours_per_day = 8`: policy (a) accepts all
three (one per day), but policy (b)'s two best-fit buckets overflow the
third stop, and that overflow is merged into the user-preference `rejected`
list — so the same stop is both accepted into user-preference day 3 and
present in the user-preference rejected list of the response. -/
theorem claim_C2_counterexample :
    locC ∈ (prefRun threeFivesInput).day_slots.getD 2 [] ∧
    locC ∈ rejectedUniqueOf threeFivesInput := by
  with_unfolding_all decide

/-- Claim C2 (amended).  Within each policy considered alone the invariant
holds: the accepted day sets plus that policy's own rejected/overflow list
are a permutation of the input, so (for duplicate-free inputs) no stop is
accepted twice and none is both accepted and rejected by the same policy.
The violation arises only because the response merges policy (b)'s
overflow into the user-preference rejected list. -/
theorem claim_C2_per_policy_partition (inp : ClusterInput)
    (hnd : inp.locations.Nodup) :
    ((prefRun inp).day_slots.flatten ++ (prefRun inp).rejected).Perm inp.locations ∧
    ((prefRun inp).day_slots.flatten ++ (prefRun inp).rejected).Nodup ∧
    ((optRun inp).day_buckets.flatten ++ (optRun inp).overflow).Perm inp.locations ∧
    ((optRun inp).day_buckets.flatten ++ (optRun inp).overflow).Nodup :=
  ⟨prefRun_alloc_perm inp, (prefRun_alloc_perm inp).symm.nodup hnd,
   optRun_alloc_perm inp, (optRun_alloc_perm inp).symm.nodup hnd⟩

/-- Witness for claim C2's per-policy invariant at a concrete input. -/
theorem claim_C2_per_policy_partition_witness :
    threeFivesInput.locations.Nodup ∧
    ((prefRun threeFivesInput).day_slots.flatten ++
      (prefRun threeFivesInput).rejected).Nodup ∧
    ((optRun threeFivesInput).day_buckets.flatten ++
      (optRun threeFivesInput).overflow).Nodup :=
  ⟨by with_unfolding_all decide,
   (claim_C2_per_policy_partition threeFivesInput
     (by with_unfolding_all decide)).2.1,
   (claim_C2_per_policy_partition threeFivesInput
     (by with_unfolding_all decide)).2.2.2⟩

/-- Claim C4 (counterexample).  When the retry search's buggy flip assigns
both meal roles to the same node (reachable with overlapping user-set
windows), the formatted route of a feasible solution has a dinner node
designated but no entry labeled `Dinner`: the `Lunch` label shadows it. -/
theorem claim_C4_counterexample :
    sharedMealData.dinner_node ≠ -1 ∧
    admissible sharedMealData [1, 2] = true ∧
    (format_solution sharedMealData [1, 2]).countP
      (fun it => it.type = "Dinner") = 0 := by
  decide

/-- Claim C4 (amended).  For every admissible route: when a lunch node is
designated and distinct from the depot, exactly one route entry is labeled
`Lunch` and its arrival lies inside the lunch window; when a dinner node is
designated and distinct from the depot **and from the lunch node**, exactly
one entry is labeled `Dinner` within the dinner window.  (When both roles
share one node the single entry is labeled `Lunch` only — see the
counterexample.) -/
theorem claim_C4_meal_roles (d : RoutingData) (perm : List Nat)
    (hadm : admissible d perm = true) :
    (d.lunch_node ≠ -1 → d.lunch_node ≠ (d.depot : Int) →
      (format_solution d perm).countP (fun it => it.type = "Lunch") = 1 ∧
      (∀ it ∈ format_solution d perm, it.type = "Lunch" →
        (d.lunch_start_hour - d.start_hour) * 60 ≤ it.arrival_time ∧
        it.arrival_time ≤ (d.lunch_end_hour - d.start_hour) * 60)) ∧
    (d.dinner_node ≠ -1 → d.dinner_node ≠ (d.depot : Int) →
        d.dinner_node ≠ d.lunch_node →
      (format_solution d perm).countP (fun it => it.type = "Dinner") = 1 ∧
      (∀ it ∈ format_solution d perm, it.type = "Dinner" →
        (d.dinner_start_hour - d.start_hour) * 60 ≤ it.arrival_time ∧
        it.arrival_time ≤ (d.dinner_end_hour - d.start_hour) * 60)) := by
  obtain ⟨hnd, hmem, -, hlunOk, hdinOk⟩ := admissible_parts d perm hadm
  constructor
  · intro hL hLd
    obtain ⟨c, harr, hLpos, hlo, hhi⟩ := mealWindowOk_spec d perm _ _ _ hlunOk hL
    have hLdep : d.lunch_node.toNat ≠ d.depot := by
      intro hc
      apply hLd
      omega
    have hLmem : d.lunch_node.toNat ∈ perm := arrivalAt_mem_perm d perm _ c harr hLdep
    constructor
    · rw [format_countP d perm "Lunch" (by decide) (by decide)]
      have hcongr : perm.countP (fun x => nodeTypeOf d x = "Lunch") =
          perm.countP (fun x => x = d.lunch_node.toNat) := by
        apply countP_congr_mem
        intro a ha
        by_cases hax : a = d.lunch_node.toNat
        · have h1 : nodeTypeOf d a = "Lunch" :=
            nodeTypeOf_lunch_intro d a (hmem a ha).2 (by omega)
          rw [decide_eq_true h1, decide_eq_true hax]
        · have h1 : ¬ (nodeTypeOf d a = "Lunch") := by
            intro hc
            obtain ⟨-, h2⟩ := nodeTypeOf_eq_lunch d a hc
            exact hax (by omega)
          rw [decide_eq_false h1, decide_eq_false hax]
      rw [hcongr]
      exact countP_eq_one_of_nodup_mem _ perm hnd hLmem
    · intro it hit htype
      unfold format_solution at hit
      rcases List.mem_append.mp hit with hmain | hend
      · obtain ⟨e, hei, hge⟩ := List.mem_map.mp hmain
        have htype' : nodeTypeOf d e.2.1 = "Lunch" := by
          rw [← hge] at htype
          exact htype
        obtain ⟨hne, heq⟩ := nodeTypeOf_eq_lunch d _ htype'
        have hei' : e ∈ List.enumFrom 0 (routeChain d perm).dropLast := hei
        have hbody : e.2 ∈ (routeChain d perm).dropLast :=
          snd_mem_of_mem_enumFrom _ 0 e hei'
        rw [routeChain_dropLast] at hbody
        rcases List.mem_cons.mp hbody with h0 | hsteps'
        · exact absurd (congrArg Prod.fst h0) hne
        · have hstepsMem : e.2 ∈ routeSteps d d.depot 0 perm :=
            (List.dropLast_sublist _).subset hsteps'
          obtain ⟨pr, hprMem, hprFst, hprSnd⟩ := arrivalAt_some d perm _ c harr
          have hcount := steps_fst_countP d perm d.lunch_node.toNat hnd hLmem hLdep
          have he2fst : e.2.1 = d.lunch_node.toNat := by omega
          have heqpr : e.2 = pr :=
            eq_of_countP_le_one _ _ (le_of_eq hcount) e.2 hstepsMem pr hprMem
              (by simpa using he2fst) (by simpa using hprFst)
          have harrv : it.arrival_time = c := by
            rw [← hge]
            show e.2.2 = c
            rw [heqpr, hprSnd]
          rw [harrv]
          exact ⟨hlo, hhi⟩
      · simp only [List.mem_singleton] at hend
        rw [hend] at htype
        have hfin : ("End" : String) = "Lunch" := htype
        exact absurd hfin (by decide)
  · intro hD hDd hDL
    obtain ⟨c, harr, hDpos, hlo, hhi⟩ := mealWindowOk_spec d perm _ _ _ hdinOk hD
    have hDdep : d.dinner_node.toNat ≠ d.depot := by
      intro hc
      apply hDd
      omega
    have hDmem : d.dinner_node.toNat ∈ perm := arrivalAt_mem_perm d perm _ c harr hDdep
    constructor
    · rw [format_countP d perm "Dinner" (by decide) (by decide)]
      have hcongr : perm.countP (fun x => nodeTypeOf d x = "Dinner") =
          perm.countP (fun x => x = d.dinner_node.toNat) := by
        apply countP_congr_mem
        intro a ha
        by_cases hax : a = d.dinner_node.toNat
        · have h1 : nodeTypeOf d a = "Dinner" :=
            nodeTypeOf_dinner_intro d a (hmem a ha).2 (by omega) (by omega)
          rw [decide_eq_true h1, decide_eq_true hax]
        · have h1 : ¬ (nodeTypeOf d a = "Dinner") := by
            intro hc
            obtain ⟨-, -, h3⟩ := nodeTypeOf_eq_dinner d a hc
            exact hax (by omega)
          rw [decide_eq_false h1, decide_eq_false hax]
      rw [hcongr]
      exact countP_eq_one_of_nodup_mem _ perm hnd hDmem
    · intro it hit htype
      unfold format_solution at hit
      rcases List.mem_append.mp hit with hmain | hend
      · obtain ⟨e, hei, hge⟩ := List.mem_map.mp hmain
        have htype' : nodeTypeOf d e.2.1 = "Dinner" := by
          rw [← hge] at htype
          exact htype
        obtain ⟨hne, -, heq⟩ := nodeTypeOf_eq_dinner d _ htype'
        have hei' : e ∈ List.enumFrom 0 (routeChain d perm).dropLast := hei
        have hbody : e.2 ∈ (routeChain d perm).dropLast :=
          snd_mem_of_mem_enumFrom _ 0 e hei'
        rw [routeChain_dropLast] at hbody
        rcases List.mem_cons.mp hbody with h0 | hsteps'
        · exact absurd (congrArg Prod.fst h0) hne
        · have hstepsMem : e.2 ∈ routeSteps d d.depot 0 perm :=
            (List.dropLast_sublist _).subset hsteps'
          obtain ⟨pr, hprMem, hprFst, hprSnd⟩ := arrivalAt_some d perm _ c harr
          have hcount := steps_fst_countP d perm d.dinner_node.toNat hnd hDmem hDdep
          have he2fst : e.2.1 = d.dinner_node.toNat := by omega
          have heqpr : e.2 = pr :=
            eq_of_countP_le_one _ _ (le_of_eq hcount) e.2 hstepsMem pr hprMem
              (by simpa using he2fst) (by simpa using hprFst)
          have harrv : it.arrival_time = c := by
            rw [← hge]
            show e.2.2 = c
            rw [heqpr, hprSnd]
          rw [harrv]
          exact ⟨hlo, hhi⟩
      · simp only [List.mem_singleton] at hend
        rw [hend] at htype
        have hfin : ("End" : String) = "Dinner" := htype
        exact absurd hfin (by decide)

/-- Witness for claim C4 at a concrete admissible route with distinct
designated lunch and dinner nodes. -/
theorem claim_C4_meal_roles_witness :
    admissible distinctMealData [1, 2] = true ∧
    (format_solution distinctMealData [1, 2]).countP
      (fun it => it.type = "Lunch") = 1 ∧
    (format_solution distinctMealData [1, 2]).countP
      (fun it => it.type = "Dinner") = 1 :=
  ⟨by decide,
   ((claim_C4_meal_roles distinctMealData [1, 2] (by decide)).1
     (by decide) (by decide)).1,
   ((claim_C4_meal_roles distinctMealData [1, 2] (by decide)).2
     (by decide) (by decide) (by decide)).1⟩

/-- Claim C6.  In both allocation policies, every day's accepted stay-hour
sum is at most `max_hours_per_day + 1e-6` (with `max_hours_per_day` the
clamped value `max(1, ·)` the code computes). -/
theorem claim_C6_day_budget (inp : ClusterInput) :
    (∀ day ∈ (prefRun inp).day_slots, sumStay day ≤ maxHoursOf inp + tol) ∧
    (∀ day ∈ (optRun inp).day_buckets, sumStay day ≤ maxHoursOf inp + tol) := by
  constructor
  · intro day hday
    obtain ⟨⟨i, hi⟩, hget⟩ := List.mem_iff_get.mp hday
    obtain ⟨_, _, hsync, hbound⟩ := prefRun_invariant inp
    have hD : (prefRun inp).day_slots.getD i [] = day := by
      rw [getD_eq_get [] _ i hi, hget]
    calc sumStay day = (prefRun inp).day_hours.getD i 0 := by rw [hsync i, hD]
      _ ≤ maxHoursOf inp + tol := hbound i
  · intro day hday
    obtain ⟨⟨i, hi⟩, hget⟩ := List.mem_iff_get.mp hday
    obtain ⟨_, _, hsync, hbound⟩ := optRun_invariant inp
    have hD : (optRun inp).day_buckets.getD i [] = day := by
      rw [getD_eq_get [] _ i hi, hget]
    calc sumStay day = (optRun inp).day_bucket_hours.getD i 0 := by rw [hsync i, hD]
      _ ≤ maxHoursOf inp + tol := hbound i

/-- Witness for claim C6 at concrete days of both policies. -/
theorem claim_C6_day_budget_witness :
    [locA] ∈ (prefRun threeFivesInput).day_slots ∧
    sumStay [locA] ≤ maxHoursOf threeFivesInput + tol ∧
    [locB] ∈ (optRun threeFivesInput).day_buckets ∧
    sumStay [locB] ≤ maxHoursOf threeFivesInput + tol :=
  ⟨by with_unfolding_all decide,
   (claim_C6_day_budget threeFivesInput).1 [locA] (by with_unfolding_all decide),
   by with_unfolding_all decide,
   (claim_C6_day_budget threeFivesInput).2 [locB] (by with_unfolding_all decide)⟩

/-- Claim C8.  A zero-stop request never surfaces the invalid-input
(422 "At least one address is required") signal: `addresses.pop(hotel_index)`
raises inside the external-call `try` block, before the validation block
runs, so the request surfaces as the 500 Google-API error whether or not
the Google calls themselves succeed. -/
theorem claim_C8_zero_stops_misreported :
    get_optimized_route_stage emptyTripRequest true = EndpointStage.googleApiError ∧
    get_optimized_route_stage emptyTripRequest false = EndpointStage.googleApiError ∧
    emptyTripRequest.addresses.length = 0 := by
  decide
